import Mathlib

/-!
Verification development for the auto-gather MCP documentation server
(`src/core/services/{crawler,parser,search,storage}.ts` and the document /
source models).

The TypeScript core is shallowly embedded below:

* Pure functions become Lean functions; stateful services (storage, the
  crawler's mutable `result`, the search index) become explicit state
  passing over a `Store` / `SearchState` value.
* Timestamps (`Date`) are `Int` milliseconds since the epoch; all clock
  reads inside a single operation are modelled by one `now` parameter.
* External npm libraries (node `crypto`, `gray-matter`, `markdown-it`,
  `cheerio`, `pdf-parse`, `JSON.parse`, `fuse.js`) are not code of this
  repository; they enter the model as the function fields of an `Env`
  record.  Fallible libraries get `Except String` signatures, so the
  `try`/`catch` structure of the source is reflected faithfully.
* The filesystem a crawl walks is an explicit tree (`FSEntry` / `RootFS`);
  a file or directory may carry an I/O error, modelling `fs.stat` /
  `fs.readdir` failures.
* JavaScript string/regex operations are re-implemented over `List Char`
  (structurally recursive, so concrete runs reduce by `rfl`/`decide`).
  JS whitespace is modelled by the ASCII whitespace characters, and
  Unicode case folding by `Char.toLower`; both match JS on the ASCII
  file names and patterns that matter here.
-/


/-! ## JavaScript string operations, modelled over `List Char` -/

/-- Build a `String` back from its characters. -/
def ofChars (cs : List Char) : String := String.mk cs

/-- The whitespace class of JS `\s`, restricted to ASCII. -/
def isJsWs (c : Char) : Bool := c = ' ' ∨ c = '\t' ∨ c = '\n' ∨ c = '\r'

/-- The `String.prototype.split(sep)` for a single-character separator. -/
def splitOnCharL (c : Char) : List Char → List (List Char)
  | [] => [[]]
  | x :: xs =>
      let r := splitOnCharL c xs
      if x = c then [] :: r
      else
        match r with
        | [] => [[x]]
        | g :: gs => (x :: g) :: gs

/-- The `replace(/\s+/g, ' ')`: collapse every whitespace run to one space.
The `prevWs` flag records whether the previous character was part of a
whitespace run already replaced. -/
def collapseWsGo (prevWs : Bool) : List Char → List Char
  | [] => []
  | c :: cs =>
      if isJsWs c then
        if prevWs then collapseWsGo true cs else ' ' :: collapseWsGo true cs
      else c :: collapseWsGo false cs

/-- The `replace(/\s+/g, ' ')` on a `String`. -/
def collapseWs (s : String) : String := ofChars (collapseWsGo false s.data)

/-- The `String.prototype.trim()`. -/
def trimWs (s : String) : String :=
  ofChars (((s.data.dropWhile (fun c => isJsWs c)).reverse.dropWhile (fun c => isJsWs c)).reverse)

/-- The `String.prototype.toLowerCase()` (ASCII-faithful). -/
def lowerStr (s : String) : String := ofChars (s.data.map Char.toLower)

/-- Replace the first occurrence of `pat` by the empty string, as in
`url.replace('file://', '')`. -/
def replaceFirstChars (pat : List Char) : List Char → List Char
  | [] => []
  | c :: cs =>
      if pat.isPrefixOf (c :: cs) then (c :: cs).drop pat.length
      else c :: replaceFirstChars pat cs

/-- The `source.url.replace('file://', '')`. -/
def stripFileScheme (url : String) : String :=
  ofChars (replaceFirstChars ("file://".data) url.data)

/-- The word count `s.split(/\s+/).length` — applied in the source only to
already collapsed-and-trimmed text, where runs of whitespace are single
spaces, so splitting on `' '` is exact (`"".split(/\s+/)` is `[""]`,
length 1, matching the `[[]]` result here). -/
def wordCountOf (s : String) : Nat := (splitOnCharL ' ' s.data).length

/-! ## Node `path` operations -/

/-- The part of `p` after the last `/` (`path.basename`, no suffix). -/
def basenameChars (p : String) : List Char :=
  ((splitOnCharL '/' p.data).getLast?).getD []

/-- The `path.basename(p)`. -/
def basenameOf (p : String) : String := ofChars (basenameChars p)

/-- The `path.extname(p)`: from the last `.` of the basename to the end; empty
when there is no dot or when the dot is the leading character of the
basename.  (Node's special case for the name `".."` is not modelled; no
crawl ever stats such an entry.) -/
def extnameChars (base : List Char) : List Char :=
  let revAfter := base.reverse.takeWhile (fun c => c ≠ '.')
  if revAfter.length = base.length then []
  else if revAfter.length + 1 = base.length then []
  else '.' :: revAfter.reverse

/-- The `path.extname(p)` on a path. -/
def extname (p : String) : String := ofChars (extnameChars (basenameChars p))

/-- The `path.basename(p, ext)`: the basename with the suffix `ext` removed when
it is a proper suffix. -/
def basenameStrip (p ext : String) : String :=
  let bc := basenameChars p
  let ec := ext.data
  if ec.isSuffixOf bc && !(bc == ec) then ofChars (bc.take (bc.length - ec.length))
  else ofChars bc

/-- Join character groups with a separator character. -/
def intercalateChars (c : Char) : List (List Char) → List Char
  | [] => []
  | [g] => g
  | g :: gs => g ++ c :: intercalateChars c gs

/-- The `path.dirname(p)`. -/
def dirname (p : String) : String :=
  let parts := splitOnCharL '/' p.data
  if parts.length ≤ 1 then "."
  else
    let cs := intercalateChars '/' parts.dropLast
    if cs = [] then "/" else ofChars cs

/-- The `path.relative(root, full)` as it occurs in the walk, where `full`
always has the shape `root ++ "/" ++ suffix`: the suffix. -/
def relPath (root full : String) : String :=
  if (root ++ "/").data.isPrefixOf full.data then ofChars (full.data.drop (root.length + 1))
  else full

/-! ## The glob matcher (`CrawlerService.matchGlob`)

The source builds a JS regex from the pattern by escaping `.`, turning `*`
into `.*` and `?` into `.`, anchoring with `^...$` and matching with the
`i` flag.  For patterns made of plain characters and the glob
metacharacters `*` `?` (the only patterns the crawler is configured with —
patterns containing other regex metacharacters such as `+` or `(` are
outside this model), the resulting regex denotes exactly: literal
characters compare case-insensitively, `?` consumes exactly one character,
`*` consumes any run of characters.  (JS `.` does not cross a line
terminator; path names containing newlines are outside the model.) -/

/-- One atom of the translated regex. -/
inductive GAtom where
  | lit (c : Char)
  | anychar
  | dotstar
deriving DecidableEq

/-- The pattern-to-regex translation of `matchGlob`. -/
def globTranslate (pat : List Char) : List GAtom :=
  pat.map fun c => if c = '*' then .dotstar else if c = '?' then .anychar else .lit c

/-- Backtracking matcher for the translated, anchored, case-insensitive
regex.  `fuel` only drives the recursion; `atoms.length + s.length + 1` is
always enough, since every recursive call shrinks `atoms.length + s.length`. -/
def rmatchF : Nat → List GAtom → List Char → Bool
  | 0, _, _ => false
  | _ + 1, [], s => s.isEmpty
  | f + 1, .lit c :: ps, s =>
      match s with
      | [] => false
      | x :: xs => (x.toLower == c.toLower) && rmatchF f ps xs
  | f + 1, .anychar :: ps, s =>
      match s with
      | [] => false
      | _ :: xs => rmatchF f ps xs
  | f + 1, .dotstar :: ps, s =>
      rmatchF f ps s || (match s with | [] => false | _ :: xs => rmatchF f (.dotstar :: ps) xs)

/-- The `CrawlerService.matchGlob(path, pattern)`. -/
def matchGlob (path pattern : String) : Bool :=
  let atoms := globTranslate pattern.data
  rmatchF (atoms.length + path.data.length + 1) atoms path.data

/-! ## Data model -/

/-- A JSON value as produced by `JSON.parse`.  Numbers are carried by their
printed representation (their exact float value is irrelevant to every
operation the core performs on them). -/
inductive Json where
  | null
  | bool (b : Bool)
  | num (printed : String)
  | str (s : String)
  | arr (elems : List Json)
  | obj (fields : List (String × Json))

/-- Front matter as returned by `gray-matter` — the fields the parser
reads. -/
structure Frontmatter where
  title : Option String
  tags : Option (List String)
  keywords : Option (List String)

/-- A metadata value (`Record<string, unknown>` in the source). -/
inductive MetaVal where
  | str (s : String)
  | num (n : Int)
  | strList (xs : List String)
  | json (j : Json)
  | fmv (f : Frontmatter)
  | pdfInfo (title : Option String)

/-- The `metadata`: later entries override earlier ones, as JS object spread
does; `metaLookup` therefore scans from the right. -/
abbrev Metadata := List (String × MetaVal)

/-- Lookup in a metadata object: the last write wins. -/
def metaLookup (m : Metadata) (k : String) : Option MetaVal :=
  (m.reverse.find? (fun kv => kv.1 == k)).map (fun kv => kv.2)

/-- The normalized `Document` (src/core/models/document.ts). -/
structure Document where
  id : String
  title : String
  content : String
  type : String
  sourceId : String
  sourcePath : String
  metadata : Metadata
  tags : Option (List String)
  createdAt : Int
  updatedAt : Int
  size : Option Nat
  checksum : Option String

/-- Crawl filters (`SourceConfig['filters']`).  `include` is a Lean
keyword, hence the guillemets. -/
structure Filters where
  «include» : Option (List String)
  exclude : Option (List String)
  maxDepth : Option Nat
  maxSize : Option Nat

/-- The `SourceConfig` (src/core/models/source.ts). -/
structure SourceConfig where
  id : String
  name : String
  type : String
  url : String
  enabled : Bool
  schedule : Option String
  lastCrawled : Option Int
  settings : Option String
  filters : Option Filters

/-- The `SourceStatus`. -/
structure SourceStatus where
  sourceId : String
  status : String
  lastRun : Option Int
  lastError : Option String
  documentsFound : Nat
  documentsProcessed : Nat
  documentsSkipped : Nat
  duration : Option Int

/-- The `CrawlResult`. -/
structure CrawlResult where
  documentsFound : Nat
  documentsProcessed : Nat
  documentsSkipped : Nat
  errors : List String

/-- The `DocumentStats`. -/
structure DocumentStats where
  totalDocuments : Nat
  documentsByType : List (String × Nat)
  documentsBySource : List (String × Nat)
  totalSize : Nat
  lastUpdated : Int

/-- The `DocumentSearchResult` (document and score; the `highlights` strings
are derived display data inspected by no claim and are not modelled). -/
structure DocumentSearchResult where
  document : Document
  score : Rat

/-! ## External library surface (`Env`)

Everything the four services call outside this repository.  A concrete
`Env` is supplied in every concrete run below; theorems quantify over it. -/

/-- What `pdf-parse` returns. -/
structure PdfData where
  text : String
  infoTitle : Option String
  numpages : Nat
  version : String

/-- One `<meta>` element as cheerio reports it. -/
structure HtmlMeta where
  name : Option String
  property : Option String
  httpEquiv : Option String
  content : Option String

/-- What the parser reads off a cheerio document. -/
structure HtmlExtract where
  titleText : String
  firstH1 : String
  bodyText : String
  fullText : String
  metas : List HtmlMeta
  headings : List String
  links : List String

/-- What `gray-matter` returns. -/
structure MatterResult where
  data : Frontmatter
  content : String

/-- The external functions: node `crypto` digests, UTF-8 decoding,
`gray-matter`, `markdown-it`'s `render`, `cheerio`, `pdf-parse`,
`JSON.parse` and the `fuse.js` ranking (corpus, threshold, query, limit ↦
ranked (item, score) list). -/
structure Env where
  sha256hex : String → String
  md5hex : List Nat → String
  utf8Decode : List Nat → String
  matter : String → Except String MatterResult
  mdRender : String → String
  htmlLoad : String → Except String HtmlExtract
  pdfParse : List Nat → Except String PdfData
  jsonParse : String → Except String Json
  fuse : List Document → Rat → String → Nat → List (Document × Rat)

/-! ## ParserService (src/core/services/parser.ts) -/

/-- What each per-format parser returns. -/
structure ParseResult where
  title : String
  content : String
  metadata : Metadata
  tags : Option (List String)

/-- JS truthiness of a JSON value (`0`, `NaN`, `""`, `null`, `false` are
falsy; `JSON.stringify` of a zero prints `"0"`). -/
def jsTruthy : Json → Bool
  | .null => false
  | .bool b => b
  | .num printed => !(printed == "0" || printed == "-0" || printed == "NaN")
  | .str s => !(s == "")
  | .arr _ => true
  | .obj _ => true

/-- Property access `data.k` (undefined on non-objects). -/
def jsGet : Json → String → Option Json
  | .obj kvs, k => (kvs.find? (fun kv => kv.1 == k)).map (fun kv => kv.2)
  | _, _ => none

/-- The `Object.keys(data)` for the values that can appear here. -/
def jsKeys : Json → List String
  | .obj kvs => kvs.map (fun kv => kv.1)
  | .arr xs => (List.range xs.length).map (fun i => toString i)
  | .str s => (List.range s.length).map (fun i => toString i)
  | _ => []

mutual
/-- The `String(v)` for a JSON value (arrays print comma-joined, as
`Array.prototype.toString` does). -/
def jsToString : Json → String
  | .null => "null"
  | .bool b => cond b "true" "false"
  | .num printed => printed
  | .str s => s
  | .arr xs => jsToStringArr xs
  | .obj _ => "[object Object]"
/-- Comma-joined element strings of an array. -/
def jsToStringArr : List Json → String
  | [] => ""
  | [x] => jsToString x
  | x :: y :: xs => jsToString x ++ "," ++ jsToStringArr (y :: xs)
end

/-- The `key.replace(/[_-]/g, ' ')` in `jsonToSearchableText`. -/
def keyText (k : String) : String :=
  ofChars (k.data.map (fun c => if c = '_' ∨ c = '-' then ' ' else c))

mutual
/-- The `ParserService.jsonToSearchableText`: flatten a JSON value to
`"key: value"` tokens joined by spaces (arrays flattened by
space-joining their elements). -/
def jsonToSearchableText : Json → String
  | .null => ""
  | .bool b => cond b "true" "false"
  | .num printed => printed
  | .str s => s
  | .arr xs => jsonArrText xs
  | .obj kvs => jsonObjText kvs
/-- Space-joined flattening of an array's elements. -/
def jsonArrText : List Json → String
  | [] => ""
  | [x] => jsonToSearchableText x
  | x :: y :: xs => jsonToSearchableText x ++ " " ++ jsonArrText (y :: xs)
/-- Space-joined `"key: value"` tokens of an object. -/
def jsonObjText : List (String × Json) → String
  | [] => ""
  | [kv] => keyText kv.1 ++ ": " ++ jsonToSearchableText kv.2
  | kv :: kv2 :: xs => keyText kv.1 ++ ": " ++ jsonToSearchableText kv.2 ++ " " ++ jsonObjText (kv2 :: xs)
end

/-- The `data.title || data.name || data.id || 'JSON Document'`. -/
def jsonTitle (data : Json) : Json :=
  let pick : Option Json → Json → Json := fun o alt =>
    match o with
    | some v => if jsTruthy v then v else alt
    | none => alt
  pick (jsGet data "title") (pick (jsGet data "name") (pick (jsGet data "id") (.str "JSON Document")))

/-- The `ParserService.parseText`. -/
def parseText (content : String) : ParseResult :=
  let lines := splitOnCharL '\n' content.data
  let title := trimWs (ofChars (lines.headD []))
  let cleanContent := trimWs (collapseWs content)
  { title := if title.length < 100 then title else ""
    content := cleanContent
    metadata := [("lineCount", .num lines.length), ("wordCount", .num (wordCountOf cleanContent))]
    tags := none }

/-- The `ParserService.parseJSON`: on a parse failure the catch falls back to
text handling. -/
def parseJSON (env : Env) (content : String) : ParseResult :=
  match env.jsonParse content with
  | .error _ => parseText content
  | .ok data =>
      let title := jsonTitle data
      let searchableText := jsonToSearchableText data
      { title := jsToString title
        content := searchableText
        metadata := [("originalData", .json data), ("type", .str "json"), ("keys", .strList (jsKeys data))]
        tags := none }

/-- The `ParserService.parsePDF`: its internal catch turns any `pdf-parse`
failure into the placeholder result, so this function is total. -/
def parsePDF (env : Env) (buffer : List Nat) : ParseResult :=
  match env.pdfParse buffer with
  | .ok data =>
      let title0 := data.infoTitle.getD ""
      let title :=
        if title0 = "" ∧ data.text ≠ "" then
          let firstLine := ofChars ((splitOnCharL '\n' data.text.data).headD [])
          if firstLine.length < 100 then trimWs firstLine else ""
        else title0
      { title := title
        content := trimWs (collapseWs data.text)
        metadata := [("info", .pdfInfo data.infoTitle), ("numpages", .num data.numpages),
                     ("version", .str data.version)]
        tags := none }
  | .error msg =>
      { title := "PDF Document"
        content := "[PDF file - " ++ toString buffer.length ++ " bytes]"
        metadata := [("size", .num buffer.length), ("type", .str "pdf"), ("parseError", .str msg)]
        tags := none }

/-- The `attr('name') || attr('property') || attr('http-equiv')`:
`undefined` and `""` fall through. -/
def jsOrOpt (a b : Option String) : Option String :=
  match a with
  | some s => if s = "" then b else some s
  | none => b

/-- The `a || b` on strings (empty is falsy). -/
def jsOrStr (a b : String) : String := if a = "" then b else a

/-- The `ParserService.parseHTML`. -/
def parseHTML (env : Env) (content : String) : Except String ParseResult := do
  let d ← env.htmlLoad content
  let title := jsOrStr d.titleText (jsOrStr d.firstH1 "")
  let bodyText := jsOrStr d.bodyText d.fullText
  let cleanText := trimWs (collapseWs bodyText)
  let metaPairs : Metadata := d.metas.foldl (fun acc m =>
    match jsOrOpt m.name (jsOrOpt m.property m.httpEquiv), m.content with
    | some n, some c => if n ≠ "" ∧ c ≠ "" then acc ++ [(n, MetaVal.str c)] else acc
    | _, _ => acc) []
  let tags : Option (List String) :=
    match metaLookup metaPairs "keywords" with
    | some (.str s) =>
        if s ≠ "" then some ((splitOnCharL ',' s.data).map (fun g => trimWs (ofChars g)))
        else none
    | _ => none
  pure { title := trimWs title
         content := cleanText
         metadata := metaPairs ++ [("headings", .strList d.headings), ("links", .strList d.links)]
         tags := tags }

/-- One line against `/^#\s+(.+)$/`: a `#`, then at least one whitespace,
then a nonempty capture that is trimmed. -/
def headingTitle (line : List Char) : Option String :=
  match line with
  | '#' :: rest =>
      let body := rest.dropWhile (fun c => isJsWs c)
      if (rest.takeWhile (fun c => isJsWs c)) ≠ [] ∧ body ≠ [] then some (trimWs (ofChars body))
      else none
  | _ => none

/-- The first `/^#\s+(.+)$/m` match of a markdown body. -/
def firstHeading (markdownContent : String) : Option String :=
  (splitOnCharL '\n' markdownContent.data).findSome? headingTitle

/-- The `replace(/<[^>]*>/g, ' ')`: each bracketed run becomes one space; a
trailing `<...` with no closing `>` is literal output (`pend` holds the
candidate tag, reversed). -/
def stripTagsGo : List Char → List Char → List Char
  | pend, [] => pend.reverse
  | [], c :: cs => if c = '<' then stripTagsGo ['<'] cs else c :: stripTagsGo [] cs
  | pend, c :: cs => if c = '>' then ' ' :: stripTagsGo [] cs else stripTagsGo (c :: pend) cs

/-- Strip HTML tags from rendered markdown. -/
def stripTags (s : String) : String := ofChars (stripTagsGo [] s.data)

/-- The `ParserService.parseMarkdown`.  `gray-matter` may throw (malformed
front matter), which propagates to `parseFile`'s catch. -/
def parseMarkdown (env : Env) (content : String) : Except String ParseResult := do
  let parsed ← env.matter content
  let frontmatter := parsed.data
  let markdownContent := parsed.content
  let title0 := frontmatter.title.getD ""
  let title := if title0 = "" then (firstHeading markdownContent).getD "" else title0
  let plainText := trimWs (collapseWs (stripTags (env.mdRender markdownContent)))
  pure { title := title
         content := plainText
         metadata := [("frontmatter", .fmv frontmatter), ("originalMarkdown", .str markdownContent),
                      ("wordCount", .num (wordCountOf plainText))]
         tags := match frontmatter.tags with
                 | some ts => some ts
                 | none => frontmatter.keywords }

/-- The `ParserService.getSupportedExtensions` / the list in `canParse`. -/
def supportedExtensions : List String :=
  [".md", ".markdown", ".html", ".htm", ".pdf", ".txt", ".json"]

/-- The `ParserService.canParse`. -/
def canParse (filePath : String) : Bool :=
  supportedExtensions.contains (lowerStr (extname filePath))

/-- A file as the parser sees it: its `fs.stat` data, raw bytes, and an
optional I/O error (a failing `fs.stat`/`fs.readFile`). -/
structure FileStat where
  size : Nat
  mtime : Int
  birthtime : Int

/-- See `FileStat`. -/
structure FileEntry where
  stat : FileStat
  bytes : List Nat
  ioError : Option String

/-- The `switch (ext)` of `parseFile` (parser.ts:43-70): route the bytes
to the per-format parser and name the document type; unknown extensions
fall through to text. -/
def dispatchParse (env : Env) (ext : String) (buffer : List Nat) :
    Except String (ParseResult × String) :=
  if ext = ".md" ∨ ext = ".markdown" then
    (parseMarkdown env (env.utf8Decode buffer)).map (fun pr => (pr, "markdown"))
  else if ext = ".html" ∨ ext = ".htm" then
    (parseHTML env (env.utf8Decode buffer)).map (fun pr => (pr, "html"))
  else if ext = ".pdf" then .ok (parsePDF env buffer, "pdf")
  else if ext = ".txt" then .ok (parseText (env.utf8Decode buffer), "text")
  else if ext = ".json" then .ok (parseJSON env (env.utf8Decode buffer), "json")
  else .ok (parseText (env.utf8Decode buffer), "text")

/-- The `ParserService.parseFile(filePath, sourceId)`: the whole body sits in a
`try` whose catch returns `null`; I/O errors and a throwing format parser
therefore yield `none`. -/
def parseFile (env : Env) (now : Int) (f : FileEntry) (filePath sourceId : String) :
    Option Document :=
  match f.ioError with
  | some _ => none
  | none =>
    let stats := f.stat
    let ext := lowerStr (extname filePath)
    let buffer := f.bytes
    let checksum := env.md5hex buffer
    match dispatchParse env ext buffer with
    | .error _ => none
    | .ok (parseResult, documentType) =>
      some {
        id := env.sha256hex (sourceId ++ ":" ++ filePath)
        title := if parseResult.title ≠ "" then parseResult.title else basenameStrip filePath ext
        content := parseResult.content
        type := documentType
        sourceId := sourceId
        sourcePath := filePath
        metadata := parseResult.metadata ++
          [("fileName", .str (basenameOf filePath)), ("extension", .str ext),
           ("directory", .str (dirname filePath))]
        tags := parseResult.tags
        createdAt := stats.birthtime
        updatedAt := if stats.mtime > now then now else stats.mtime
        size := some stats.size
        checksum := some checksum }

/-! ## StorageService (src/core/services/storage.ts)

The SQLite tables become lists; `INSERT OR REPLACE` deletes the old row
and appends the new one, as SQLite does.  `JSON.stringify`/`JSON.parse`
round-trips of `metadata`/`tags` are identities here; the `|| null`
falsy-coercions on write (`doc.size || null`, `doc.checksum || null`)
collapse only `some 0` / `some ""` to NULL, edge values no claim touches,
and are modelled as the identity. -/

/-- The durable state: documents, sources, per-source status rows, plus
the chronological trace of `updateSourceStatus` writes (observing the
order of status transitions of one run). -/
structure Store where
  documents : List Document
  sources : List SourceConfig
  statuses : List SourceStatus
  statusLog : List SourceStatus

/-- The `SELECT * FROM documents WHERE id = ?`. -/
def getDocumentL (docs : List Document) (id : String) : Option Document :=
  docs.find? (fun d => d.id == id)

/-- The `StorageService.getDocument`. -/
def Store.getDocument (st : Store) (id : String) : Option Document :=
  getDocumentL st.documents id

/-- The `INSERT OR REPLACE INTO documents`. -/
def saveDocumentL (docs : List Document) (d : Document) : List Document :=
  docs.filter (fun x => x.id != d.id) ++ [d]

/-- The `StorageService.saveDocument`. -/
def Store.saveDocument (st : Store) (d : Document) : Store :=
  { st with documents := saveDocumentL st.documents d }

/-- The `StorageService.deleteDocument` (`DELETE ... WHERE id = ?`, returning
`changes > 0`). -/
def Store.deleteDocument (st : Store) (id : String) : Store × Bool :=
  ({ st with documents := st.documents.filter (fun d => d.id != id) },
   st.documents.any (fun d => d.id == id))

/-- Insertion into a list ordered by `updatedAt` descending. -/
def insertByUpdatedDesc (d : Document) : List Document → List Document
  | [] => [d]
  | x :: xs => if x.updatedAt ≤ d.updatedAt then d :: x :: xs else x :: insertByUpdatedDesc d xs

/-- The `ORDER BY updated_at DESC`. -/
def sortByUpdatedDesc : List Document → List Document
  | [] => []
  | x :: xs => insertByUpdatedDesc x (sortByUpdatedDesc xs)

/-- The `StorageService.getDocumentsBySource`. -/
def Store.getDocumentsBySource (st : Store) (sourceId : String) : List Document :=
  sortByUpdatedDesc (st.documents.filter (fun d => d.sourceId == sourceId))

/-- Insertion into a list ordered by `name` ascending. -/
def insertByName (s : SourceConfig) : List SourceConfig → List SourceConfig
  | [] => [s]
  | x :: xs => if s.name ≤ x.name then s :: x :: xs else x :: insertByName s xs

/-- The `ORDER BY name`. -/
def sortByName : List SourceConfig → List SourceConfig
  | [] => []
  | x :: xs => insertByName x (sortByName xs)

/-- The `StorageService.getAllSources`. -/
def Store.getAllSources (st : Store) : List SourceConfig := sortByName st.sources

/-- The `StorageService.saveSource` (`INSERT OR REPLACE INTO sources`). -/
def Store.saveSource (st : Store) (s : SourceConfig) : Store :=
  { st with sources := st.sources.filter (fun x => x.id != s.id) ++ [s] }

/-- The `StorageService.getSource`. -/
def Store.getSource (st : Store) (id : String) : Option SourceConfig :=
  st.sources.find? (fun s => s.id == id)

/-- The `StorageService.deleteSource`: delete the source's documents, then its
status row, then the source row itself; returns `changes > 0` of the last
delete. -/
def Store.deleteSource (st : Store) (id : String) : Store × Bool :=
  let st1 := { st with documents := st.documents.filter (fun d => d.sourceId != id) }
  let st2 := { st1 with statuses := st1.statuses.filter (fun s => s.sourceId != id) }
  ({ st2 with sources := st2.sources.filter (fun s => s.id != id) },
   st2.sources.any (fun s => s.id == id))

/-- The `StorageService.updateSourceStatus` (`INSERT OR REPLACE INTO
source_status`, keyed by `source_id`); the write is also appended to the
trace. -/
def Store.updateSourceStatus (st : Store) (s : SourceStatus) : Store :=
  { st with statuses := st.statuses.filter (fun x => x.sourceId != s.sourceId) ++ [s],
            statusLog := st.statusLog ++ [s] }

/-- The `StorageService.getSourceStatus`. -/
def Store.getSourceStatus (st : Store) (sourceId : String) : Option SourceStatus :=
  st.statuses.find? (fun s => s.sourceId == sourceId)

/-- Group-and-count rows by a key (`GROUP BY`), keys in first-appearance
order. -/
def countByKey (key : Document → String) (docs : List Document) : List (String × Nat) :=
  ((docs.map key).eraseDups).map (fun k => (k, (docs.filter (fun d => key d == k)).length))

/-- The `StorageService.getDocumentStats`.  `MAX(updated_at)` is NULL on an
empty table; the source then falls back to `new Date()` — and, because the
row value passes through JS truthiness, a maximum of exactly `0` takes the
same fallback. -/
def Store.getDocumentStats (st : Store) (now : Int) : DocumentStats :=
  { totalDocuments := st.documents.length
    documentsByType := countByKey (fun d => d.type) st.documents
    documentsBySource := countByKey (fun d => d.sourceId) st.documents
    totalSize := (st.documents.map (fun d => d.size.getD 0)).sum
    lastUpdated :=
      match (st.documents.map (fun d => d.updatedAt)).max? with
      | some m => if m = 0 then now else m
      | none => now }

/-! ## CrawlerService (src/core/services/crawler.ts) -/

/-- The directory tree a crawl walks.  A file's `ioError` makes its
`fs.stat` (and `fs.readFile`) throw; a directory's `readError` makes
`fs.readdir` throw. -/
inductive FSEntry where
  | file (name : String) (stat : FileStat) (bytes : List Nat) (ioError : Option String)
  | dir (name : String) (readError : Option String) (entries : List FSEntry)

/-- What `fs.stat(rootPath)` finds at the source root. -/
inductive RootFS where
  | missing
  | notDirectory
  | directory (readError : Option String) (entries : List FSEntry)

/-- The `filters.maxDepth || 10` — JS `||`, so an explicit `0` also takes the
default. -/
def jsOrNat (o : Option Nat) (dflt : Nat) : Nat :=
  match o with
  | some n => if n = 0 then dflt else n
  | none => dflt

/-- The `CrawlerService.shouldProcessPath`. -/
def shouldProcessPath (relativePath : String) (filters : Option Filters) : Bool :=
  match filters with
  | none => true
  | some fs =>
      let included := match fs.«include» with
        | some pats => if pats.length > 0 then pats.any (fun pattern => matchGlob relativePath pattern) else true
        | none => true
      let excluded := match fs.exclude with
        | some pats => if pats.length > 0 then pats.any (fun pattern => matchGlob relativePath pattern) else false
        | none => false
      included && !excluded

/-- The parameters fixed over one walk: the env, the run's clock, the
source, its root path, and the effective depth/size limits. -/
structure CrawlCtx where
  env : Env
  now : Int
  source : SourceConfig
  rootPath : String
  maxDepth : Nat
  maxSize : Nat

/-- The `result.documentsSkipped++`. -/
def skipOne (acc : Store × CrawlResult) : Store × CrawlResult :=
  (acc.1, { acc.2 with documentsSkipped := acc.2.documentsSkipped + 1 })

/-- The id the crawler derives for its skip check (crawler.ts:161-163):
`sha256(sourceId + ':' + fullPath)` in hex. -/
def crawlerDocId (env : Env) (source : SourceConfig) (fullPath : String) : String :=
  env.sha256hex (source.id ++ ":" ++ fullPath)

/-- The per-file branch of `crawlDirectory` (crawler.ts:142-184): stat
(whose failure is caught as a per-file error), size check, `canParse`
check, the found counter, the up-to-date skip check, then parse-and-save
or skip. -/
def processFile (C : CrawlCtx) (fullPath : String) (stat : FileStat) (bytes : List Nat)
    (ioErr : Option String) (acc : Store × CrawlResult) : Store × CrawlResult :=
  match ioErr with
  | some msg =>
      (acc.1, { acc.2 with
        errors := acc.2.errors ++ ["Error processing file " ++ fullPath ++ ": " ++ msg],
        documentsSkipped := acc.2.documentsSkipped + 1 })
  | none =>
      if stat.size > C.maxSize then skipOne acc
      else if ¬ canParse fullPath then skipOne acc
      else
        let acc1 := (acc.1, { acc.2 with documentsFound := acc.2.documentsFound + 1 })
        let docId := crawlerDocId C.env C.source fullPath
        let upToDate := match acc1.1.getDocument docId with
          | some existingDoc => decide (stat.mtime ≤ existingDoc.updatedAt)
          | none => false
        if upToDate then skipOne acc1
        else
          match parseFile C.env C.now ⟨stat, bytes, none⟩ fullPath C.source.id with
          | some document =>
              (acc1.1.saveDocument document,
               { acc1.2 with documentsProcessed := acc1.2.documentsProcessed + 1 })
          | none => skipOne acc1

mutual
/-- One entry of `crawlDirectory`'s loop (crawler.ts:130-186): the filter
check applies to files and directories alike; a passing directory is
recursed into (`crawlDirectory(fullPath, depth+1)` first checks the depth
limit, then reads the directory, recording a read failure as a per-run
error). -/
def crawlEntry (C : CrawlCtx) (dirPath : String) (e : FSEntry) (currentDepth : Nat)
    (acc : Store × CrawlResult) : Store × CrawlResult :=
  match e with
  | .file name stat bytes ioErr =>
      let fullPath := dirPath ++ "/" ++ name
      let relativePath := relPath C.rootPath fullPath
      if ¬ shouldProcessPath relativePath C.source.filters then skipOne acc
      else processFile C fullPath stat bytes ioErr acc
  | .dir name readErr entries =>
      let fullPath := dirPath ++ "/" ++ name
      let relativePath := relPath C.rootPath fullPath
      if ¬ shouldProcessPath relativePath C.source.filters then skipOne acc
      else if C.maxDepth ≤ currentDepth + 1 then acc
      else
        match readErr with
        | some msg =>
            (acc.1, { acc.2 with
              errors := acc.2.errors ++ ["Error reading directory " ++ fullPath ++ ": " ++ msg] })
        | none => crawlEntries C fullPath entries (currentDepth + 1) acc
/-- The `crawlDirectory`'s `for (const entry of entries)` loop. -/
def crawlEntries (C : CrawlCtx) (dirPath : String) (es : List FSEntry) (currentDepth : Nat)
    (acc : Store × CrawlResult) : Store × CrawlResult :=
  match es with
  | [] => acc
  | e :: rest => crawlEntries C dirPath rest currentDepth (crawlEntry C dirPath e currentDepth acc)
end

/-- An empty `CrawlResult`. -/
def emptyResult : CrawlResult := ⟨0, 0, 0, []⟩

/-- The `CrawlerService.crawlLocalFiles` plus the top `crawlDirectory` call.
A missing root and a non-directory root both surface as the re-wrapped
`Cannot access path` error (the `not a directory` throw happens inside the
`try` of crawler.ts:99-106). -/
def crawlLocalFiles (env : Env) (now : Int) (rootfs : RootFS) (source : SourceConfig)
    (acc : Store × CrawlResult) : Except String (Store × CrawlResult) :=
  let rootPath := stripFileScheme source.url
  match rootfs with
  | .missing => .error ("Cannot access path: " ++ rootPath)
  | .notDirectory => .error ("Cannot access path: " ++ rootPath)
  | .directory readErr entries =>
      let filters := source.filters.getD ⟨none, none, none, none⟩
      let maxDepth := jsOrNat filters.maxDepth 10
      let maxSize := jsOrNat filters.maxSize (10 * 1024 * 1024)
      let C : CrawlCtx := ⟨env, now, source, rootPath, maxDepth, maxSize⟩
      .ok (if maxDepth ≤ 0 then acc
           else
             match readErr with
             | some msg =>
                 (acc.1, { acc.2 with
                   errors := acc.2.errors ++ ["Error reading directory " ++ rootPath ++ ": " ++ msg] })
             | none => crawlEntries C rootPath entries 0 acc)

/-- The `CrawlerService.crawlSource`: status `crawling` at the start; the
typed dispatch (`local` runs, the declared remote types throw `not yet
implemented`); terminal status `success` (then `source.lastCrawled` is
saved) or, from the catch, `error` carrying the message.  `duration`
values are `0` because all clock reads of one run are the single `now`. -/
def crawlSource (env : Env) (now : Int) (rootfs : RootFS) (source : SourceConfig)
    (st : Store) : Store × CrawlResult :=
  let st0 := st.updateSourceStatus ⟨source.id, "crawling", some now, none, 0, 0, 0, none⟩
  let attempt : Except String (Store × CrawlResult) :=
    if source.type = "local" then crawlLocalFiles env now rootfs source (st0, emptyResult)
    else if source.type = "git" then .error "Git sources not yet implemented"
    else if source.type = "web" then .error "Web sources not yet implemented"
    else if source.type = "api" then .error "API sources not yet implemented"
    else .error ("Unknown source type: " ++ source.type)
  match attempt with
  | .ok (st1, result) =>
      let st2 := st1.updateSourceStatus ⟨source.id, "success", some now, none,
        result.documentsFound, result.documentsProcessed, result.documentsSkipped, some 0⟩
      let st3 := st2.saveSource { source with lastCrawled := some now }
      (st3, result)
  | .error errorMessage =>
      let result : CrawlResult := { emptyResult with errors := [errorMessage] }
      let st2 := st0.updateSourceStatus ⟨source.id, "error", some now, some errorMessage,
        result.documentsFound, result.documentsProcessed, result.documentsSkipped, some 0⟩
      (st2, result)

/-! ## SearchService (src/core/services/search.ts) -/

/-- The index service's private state: whether `this.fuse` is non-null,
the document snapshot, and the last build time. -/
structure SearchState where
  built : Bool
  documents : List Document
  lastIndexUpdate : Int

/-- The `SearchOptions` (the fields `search` reads; `includeScore` /
`includeMatches` only shape the unmodelled highlight payload). -/
structure SearchOptions where
  limit : Option Nat
  threshold : Option Rat
  sourceIds : Option (List String)
  types : Option (List String)
  tags : Option (List String)

/-- The `SearchService.rebuildIndex`: snapshot all documents source by source
(sources in `getAllSources` order) and restamp `lastIndexUpdate`. -/
def rebuildIndex (now : Int) (st : Store) : SearchState :=
  ⟨true, (st.getAllSources).foldl (fun acc s => acc ++ st.getDocumentsBySource s.id) [], now⟩

/-- One post-match filter block of `search`: applied when the option is
present and nonempty. -/
def filterStage (o : Option (List String)) (p : List String → Document × Rat → Bool)
    (rs : List (Document × Rat)) : List (Document × Rat) :=
  match o with
  | some xs => if xs.length > 0 then rs.filter (p xs) else rs
  | none => rs

/-- The three post-match filters of `search` (crawler.ts:341-359), in
source order: `sourceIds`, then `types`, then `tags`. -/
def postFilter (opts : SearchOptions) (rs : List (Document × Rat)) : List (Document × Rat) :=
  filterStage opts.tags (fun ts r => (r.1.tags.getD []).any (fun tag => ts.contains tag))
    (filterStage opts.types (fun ts r => ts.contains r.1.type)
      (filterStage opts.sourceIds (fun ids r => ids.contains r.1.sourceId) rs))

/-- The body of `search` after the staleness check, over the possibly
rebuilt state `ss1`: the empty-query / no-index early return, the
threshold-specific Fuse instance (built only when the caller's threshold
differs from the default `0.3`), an over-fetch of `limit * 2`, the
post-match filters, truncation to `limit`, and score inversion.  The
source's local consts `limit` and `threshold` are inlined as
`opts.limit.getD 50` and `opts.threshold.getD (3/10)`. -/
def searchBody (env : Env) (query : String) (opts : SearchOptions) (ss1 : SearchState) :
    List DocumentSearchResult × SearchState :=
  if ¬ ss1.built ∨ trimWs query = "" then ([], ss1)
  else
    (((postFilter opts
        (if opts.threshold.getD (3/10) ≠ 3/10
         then env.fuse ss1.documents (opts.threshold.getD (3/10)) query (opts.limit.getD 50 * 2)
         else env.fuse ss1.documents (3/10) query (opts.limit.getD 50 * 2))).take
       (opts.limit.getD 50)).map (fun r => ⟨r.1, 1 - r.2⟩), ss1)

/-- The `SearchService.search`: the staleness check against
`stats.lastUpdated`, then the body. -/
def search (env : Env) (now : Int) (st : Store) (ss : SearchState) (query : String)
    (opts : SearchOptions) : List DocumentSearchResult × SearchState :=
  let stats := st.getDocumentStats now
  let ss1 := if stats.lastUpdated > ss.lastIndexUpdate then rebuildIndex now st else ss
  searchBody env query opts ss1

/-- The `SearchService.getSimilarDocuments`: synthetic query from the target's
title and tags, `search` with `limit + 1`, then self-exclusion. -/
def getSimilarDocuments (env : Env) (now : Int) (st : Store) (ss : SearchState)
    (documentId : String) (limit : Nat) : List DocumentSearchResult × SearchState :=
  match st.getDocument documentId with
  | none => ([], ss)
  | some document =>
      let query := String.intercalate " " (document.title :: document.tags.getD [])
      let out := search env now st ss query ⟨some (limit + 1), none, none, none, none⟩
      (out.1.filter (fun r => r.document.id != documentId), out.2)

/-! ## Spec-side notions and proof infrastructure -/

/-- The specification's glob semantics, by recursion on the translated
pattern: literals compare case-insensitively, `?` consumes exactly one
character, `*` consumes any run of characters. -/
def GlobSem : List GAtom → List Char → Prop
  | [], s => s = []
  | .lit c :: ps, s => ∃ x xs, s = x :: xs ∧ x.toLower = c.toLower ∧ GlobSem ps xs
  | .anychar :: ps, s => ∃ x xs, s = x :: xs ∧ GlobSem ps xs
  | .dotstar :: ps, s => ∃ a b, s = a ++ b ∧ GlobSem ps b

mutual
/-- Size of a tree entry, driving strong induction. -/
def sizeE : FSEntry → Nat
  | .file .. => 1
  | .dir _ _ es => 1 + sizeL es
/-- Size of an entry list. -/
def sizeL : List FSEntry → Nat
  | [] => 0
  | e :: rest => sizeE e + sizeL rest
end

mutual
/-- Store-independent accounting mirror of the walk: for an entry, the
pair (candidate files, non-candidate skips) it contributes.  A candidate
passes the filters, stats without error, fits the size limit and has a
supported extension; it is exactly the entries `documentsFound` counts.
Everything else the walk skips (filtered entries and directories,
erroring, oversized or unsupported files) is a non-candidate skip. -/
def candEntry (source : SourceConfig) (rootPath : String) (maxDepth maxSize : Nat)
    (dirPath : String) : FSEntry → Nat → Nat × Nat
  | .file name stat _ ioErr, _ =>
      let fullPath := dirPath ++ "/" ++ name
      if ¬ shouldProcessPath (relPath rootPath fullPath) source.filters then (0, 1)
      else
        match ioErr with
        | some _ => (0, 1)
        | none =>
            if stat.size > maxSize then (0, 1)
            else if ¬ canParse fullPath then (0, 1)
            else (1, 0)
  | .dir name readErr entries, currentDepth =>
      let fullPath := dirPath ++ "/" ++ name
      if ¬ shouldProcessPath (relPath rootPath fullPath) source.filters then (0, 1)
      else if maxDepth ≤ currentDepth + 1 then (0, 0)
      else
        match readErr with
        | some _ => (0, 0)
        | none => candEntries source rootPath maxDepth maxSize fullPath entries (currentDepth + 1)
/-- Sum of `candEntry` over a list. -/
def candEntries (source : SourceConfig) (rootPath : String) (maxDepth maxSize : Nat)
    (dirPath : String) : List FSEntry → Nat → Nat × Nat
  | [], _ => (0, 0)
  | e :: rest, currentDepth =>
      let p := candEntry source rootPath maxDepth maxSize dirPath e currentDepth
      let q := candEntries source rootPath maxDepth maxSize dirPath rest currentDepth
      (p.1 + q.1, p.2 + q.2)
end

mutual
/-- The re-crawl invariant: every candidate file the walk would visit
either already has a stored document at its derived id whose `updatedAt`
is at or past the file's mtime, or fails to parse (at every clock).  The
guards mirror the walk exactly, so nothing is demanded of unvisited
subtrees. -/
def InvEntry (env : Env) (source : SourceConfig) (rootPath : String) (maxDepth maxSize : Nat)
    (docs : List Document) (dirPath : String) : FSEntry → Nat → Prop
  | .file name stat bytes ioErr, _ =>
      (shouldProcessPath (relPath rootPath (dirPath ++ "/" ++ name)) source.filters = true ∧
       ioErr = none ∧ stat.size ≤ maxSize ∧ canParse (dirPath ++ "/" ++ name) = true) →
      ((∃ d, getDocumentL docs (crawlerDocId env source (dirPath ++ "/" ++ name)) = some d ∧
             stat.mtime ≤ d.updatedAt) ∨
       (∀ n : Int, parseFile env n ⟨stat, bytes, none⟩ (dirPath ++ "/" ++ name) source.id = none))
  | .dir name readErr entries, currentDepth =>
      (shouldProcessPath (relPath rootPath (dirPath ++ "/" ++ name)) source.filters = true ∧
       currentDepth + 1 < maxDepth ∧ readErr = none) →
      InvEntries env source rootPath maxDepth maxSize docs (dirPath ++ "/" ++ name) entries
        (currentDepth + 1)
/-- The `InvEntry` over an entry list. -/
def InvEntries (env : Env) (source : SourceConfig) (rootPath : String) (maxDepth maxSize : Nat)
    (docs : List Document) (dirPath : String) : List FSEntry → Nat → Prop
  | [], _ => True
  | e :: rest, currentDepth =>
      InvEntry env source rootPath maxDepth maxSize docs dirPath e currentDepth ∧
      InvEntries env source rootPath maxDepth maxSize docs dirPath rest currentDepth
end

mutual
/-- All file mtimes in a subtree are at or before `now`. -/
def mtimesOkE (now : Int) : FSEntry → Bool
  | .file _ stat _ _ => stat.mtime ≤ now
  | .dir _ _ es => mtimesOkL now es
/-- The `mtimesOkE` over a list. -/
def mtimesOkL (now : Int) : List FSEntry → Bool
  | [] => true
  | e :: rest => mtimesOkE now e && mtimesOkL now rest
end

/-- The `mtimesOk` at the crawl root. -/
def rootMtimesOk (now : Int) : RootFS → Bool
  | .directory _ es => mtimesOkL now es
  | _ => true

/-- Document-store evolution during a crawl: ids never disappear and their
`updatedAt` never decreases. -/
def DocPres (a b : List Document) : Prop :=
  ∀ i d, getDocumentL a i = some d →
    ∃ d', getDocumentL b i = some d' ∧ d.updatedAt ≤ d'.updatedAt

/-- The `RootFS.directory` recognizer (the `fs.stat` validation of
`crawlLocalFiles` succeeds exactly here). -/
def rootIsDirectory : RootFS → Bool
  | .directory .. => true
  | _ => false

/-! ## Concrete fixtures for witnesses and counterexamples -/

/-- A concrete external world: digests are tagging functions, markdown
front matter parses trivially, PDFs fail to decode, fuse ranks nothing. -/
def mockEnv : Env :=
  { sha256hex := fun s => "sha:" ++ s
    md5hex := fun _ => "md5"
    utf8Decode := fun _ => "hello world"
    matter := fun s => .ok ⟨⟨none, none, none⟩, s⟩
    mdRender := fun s => s
    htmlLoad := fun _ => .ok ⟨"", "", "", "", [], [], []⟩
    pdfParse := fun _ => .error "Invalid PDF structure"
    jsonParse := fun _ => .error "Unexpected token"
    fuse := fun _ _ _ _ => [] }

/-- A world where `gray-matter` throws — a markdown file with malformed
YAML front matter. -/
def badMatterEnv : Env :=
  { mockEnv with matter := fun _ => .error "YAMLException: bad indentation" }

/-- A local source without filters. -/
def srcLocal : SourceConfig :=
  { id := "s1", name := "docs", type := "local", url := "file:///docs", enabled := true,
    schedule := none, lastCrawled := none, settings := none, filters := none }

/-- The same source restricted to `include = ["*.md"]`. -/
def srcOnlyMd : SourceConfig :=
  { srcLocal with filters := some ⟨some ["*.md"], none, none, none⟩ }

/-- The same source with `include = ["*"]`, `exclude = ["drafts/**"]`. -/
def srcNoDrafts : SourceConfig :=
  { srcLocal with filters := some ⟨some ["*"], some ["drafts/**"], none, none⟩ }

/-- The empty store. -/
def emptyStore : Store := ⟨[], [], [], []⟩

/-- C2's counterexample tree: a markdown file whose mtime (100) is in the
future of the crawl clock (50), a normal markdown file, and two files of
unsupported extension. -/
def cexTree : RootFS := .directory none
  [ .file "a.md" ⟨10, 100, 0⟩ [1] none,
    .file "c.md" ⟨10, 1, 0⟩ [2] none,
    .file "b.xyz" ⟨10, 1, 0⟩ [] none,
    .file "d.xyz" ⟨10, 1, 0⟩ [] none ]

/-- A one-file tree with a past mtime, for the amended C2 witness. -/
def okTree : RootFS := .directory none [ .file "w.md" ⟨10, 1, 0⟩ [1] none ]

/-- A `.txt`-only tree, for the C6 include scenario. -/
def txtTree : RootFS := .directory none [ .file "a.txt" ⟨10, 1, 0⟩ [1] none ]

/-- A tree with a markdown file under `drafts/`, for the C6 exclude
scenario. -/
def draftsTree : RootFS := .directory none
  [ .dir "drafts" none [ .file "x.md" ⟨10, 1, 0⟩ [1] none ] ]

/-- Three concrete documents for the search fixtures. -/
def docA : Document :=
  ⟨"idA", "alpha guide", "contents a", "markdown", "s1", "/docs/a.md", [], some ["alpha"],
   0, 5, some 9, some "ca"⟩

/-- See `docA`. -/
def docB : Document :=
  ⟨"idB", "alpha also", "contents b", "markdown", "s1", "/docs/b.md", [], some ["alpha"],
   0, 5, some 9, some "cb"⟩

/-- See `docA`. -/
def docC : Document :=
  ⟨"idC", "alpha three", "contents c", "text", "s2", "/docs/c.txt", [], none,
   0, 5, some 9, some "cc"⟩

/-- A store holding the three search documents. -/
def searchStore : Store := ⟨[docA, docB, docC], [], [], []⟩

/-- A search state already built over the three documents, stamped after
their `updatedAt`, so no rebuild triggers. -/
def searchState : SearchState := ⟨true, [docA, docB, docC], 10⟩

/-- A world whose fuse ranking returns `docB` and `docC` (but never the
query's source document `docA`) for any query. -/
def fuseEnv : Env :=
  { mockEnv with fuse := fun _ _ _ _ => [(docB, 0), (docC, 1/10)] }

/-- A document stamped exactly at the epoch (`updatedAt = 0`), and a store
holding only it — the C9 edge case. -/
def epochDoc : Document :=
  ⟨"idE", "epoch", "contents e", "text", "s1", "/docs/e.txt", [], none, 0, 0, some 1, none⟩

/-- See `epochDoc`. -/
def epochStore : Store := ⟨[epochDoc], [], [], []⟩

/-- What one walk step guarantees, relative to the accumulator `(st, r)`
it started from: the found counter grows by the candidate count; skips
plus processed grow by candidates plus non-candidate skips; only the
documents table can change; if the re-crawl invariant already holds the
store is untouched and nothing is processed; and (when every mtime in the
subtree is at or before the clock) the documents evolve monotonically and
the invariant holds afterwards. -/
def StepSpec (st : Store) (r : CrawlResult) (out : Store × CrawlResult)
    (cand : Nat × Nat) (inv : List Document → Prop) (mtOk : Bool) : Prop :=
  out.2.documentsFound = r.documentsFound + cand.1 ∧
  out.2.documentsSkipped + out.2.documentsProcessed
      = r.documentsSkipped + r.documentsProcessed + cand.1 + cand.2 ∧
  out.1.sources = st.sources ∧ out.1.statuses = st.statuses ∧ out.1.statusLog = st.statusLog ∧
  (inv st.documents → out.1 = st ∧ out.2.documentsProcessed = r.documentsProcessed) ∧
  (mtOk = true → DocPres st.documents out.1.documents ∧ inv out.1.documents)

/-! ## Infrastructure lemmas -/

theorem sizeE_pos (e : FSEntry) : 1 ≤ sizeE e := by
  cases e with
  | file => simp [sizeE]
  | dir => simp [sizeE]

/-- Mutual induction over the nested tree type: to prove `P` of every
entry and `Q` of every entry list, it is enough to cover files, dirs from
their entry lists, nil, and cons. -/
theorem fsInduction (P : FSEntry → Prop) (Q : List FSEntry → Prop)
    (hfile : ∀ n st b io, P (.file n st b io))
    (hdir : ∀ n err es, Q es → P (.dir n err es))
    (hnil : Q [])
    (hcons : ∀ e rest, P e → Q rest → Q (e :: rest)) :
    (∀ e, P e) ∧ (∀ es, Q es) := by
  have key : ∀ N, (∀ e, sizeE e ≤ N → P e) ∧ (∀ es, sizeL es ≤ N → Q es) := by
    intro N
    induction N with
    | zero =>
        constructor
        · intro e h
          exact absurd (le_trans (sizeE_pos e) h) (by omega)
        · intro es h
          cases es with
          | nil => exact hnil
          | cons e rest =>
              exfalso
              have := sizeE_pos e
              simp [sizeL] at h
              omega
    | succ n ih =>
        have hP : ∀ e, sizeE e ≤ n + 1 → P e := by
          intro e he
          cases e with
          | file n' st b io => exact hfile n' st b io
          | dir n' err es =>
              apply hdir
              apply ih.2
              simp [sizeE] at he
              omega
        refine ⟨hP, ?_⟩
        intro es
        induction es with
        | nil => intro _; exact hnil
        | cons e rest ihrest =>
            intro h
            simp [sizeL] at h
            have h1 : sizeE e ≤ n + 1 := by have := sizeE_pos e; omega
            have h2 : sizeL rest ≤ n + 1 := by have := sizeE_pos e; omega
            exact hcons e rest (hP e h1) (ihrest h2)
  exact ⟨fun e => (key (sizeE e)).1 e le_rfl, fun es => (key (sizeL es)).2 es le_rfl⟩

theorem DocPres.rfl (a : List Document) : DocPres a a :=
  fun _ d h => ⟨d, h, le_refl _⟩

theorem DocPres.trans {a b c : List Document} (h1 : DocPres a b) (h2 : DocPres b c) :
    DocPres a c := by
  intro i d h
  obtain ⟨d', hb, hle⟩ := h1 i d h
  obtain ⟨d'', hc, hle'⟩ := h2 i d' hb
  exact ⟨d'', hc, le_trans hle hle'⟩

/-! ## Helper lemmas: parser -/

theorem parseFile_id (env : Env) (now : Int) (f : FileEntry) (p sid : String) (d : Document)
    (h : parseFile env now f p sid = some d) :
    d.id = env.sha256hex (sid ++ ":" ++ p) := by
  obtain ⟨fst, fbytes, fio⟩ := f
  cases fio with
  | some e => simp [parseFile] at h
  | none =>
      simp only [parseFile] at h
      cases hd : dispatchParse env (lowerStr (extname p)) fbytes with
      | error e => rw [hd] at h; simp at h
      | ok pr =>
          rw [hd] at h
          obtain ⟨parseResult, documentType⟩ := pr
          simp only [Option.some.injEq] at h
          subst h
          rfl

theorem parseFile_updatedAt (env : Env) (now : Int) (f : FileEntry) (p sid : String)
    (d : Document) (h : parseFile env now f p sid = some d) :
    d.updatedAt = if f.stat.mtime > now then now else f.stat.mtime := by
  obtain ⟨fst, fbytes, fio⟩ := f
  cases fio with
  | some e => simp [parseFile] at h
  | none =>
      simp only [parseFile] at h
      cases hd : dispatchParse env (lowerStr (extname p)) fbytes with
      | error e => rw [hd] at h; simp at h
      | ok pr =>
          rw [hd] at h
          obtain ⟨parseResult, documentType⟩ := pr
          simp only [Option.some.injEq] at h
          subst h
          rfl

theorem parseFile_none_now (env : Env) (now : Int) (f : FileEntry) (p sid : String)
    (h : parseFile env now f p sid = none) (n : Int) :
    parseFile env n f p sid = none := by
  obtain ⟨fst, fbytes, fio⟩ := f
  cases fio with
  | some e => simp [parseFile]
  | none =>
      simp only [parseFile] at h ⊢
      cases hd : dispatchParse env (lowerStr (extname p)) fbytes with
      | error e => rfl
      | ok pr =>
          rw [hd] at h
          obtain ⟨parseResult, documentType⟩ := pr
          simp at h

/-! ## Helper lemmas: storage -/

theorem find?_filter_of_imp {α} (p q : α → Bool) (l : List α)
    (h : ∀ x, p x = true → q x = true) :
    List.find? p (l.filter q) = List.find? p l := by
  induction l with
  | nil => rfl
  | cons x xs ih =>
      by_cases hq : q x = true
      · rw [List.filter_cons_of_pos hq]
        by_cases hp : p x = true
        · rw [List.find?_cons_of_pos _ hp, List.find?_cons_of_pos _ hp]
        · rw [List.find?_cons_of_neg _ hp, List.find?_cons_of_neg _ hp]
          exact ih
      · rw [List.filter_cons_of_neg (by simpa using hq)]
        have hp : ¬ p x = true := fun hpx => hq (h x hpx)
        rw [List.find?_cons_of_neg _ hp]
        exact ih

theorem getDocumentL_save_self (docs : List Document) (d : Document) :
    getDocumentL (saveDocumentL docs d) d.id = some d := by
  unfold getDocumentL saveDocumentL
  rw [List.find?_append]
  have h1 : List.find? (fun x => x.id == d.id) (docs.filter (fun x => x.id != d.id)) = none := by
    rw [List.find?_eq_none]
    intro x hx
    have hne := (List.mem_filter.mp hx).2
    simp only [bne_iff_ne, ne_eq] at hne
    simp [hne]
  rw [h1]
  simp

theorem getDocumentL_save_ne (docs : List Document) (d : Document) (i : String)
    (hi : i ≠ d.id) :
    getDocumentL (saveDocumentL docs d) i = getDocumentL docs i := by
  unfold getDocumentL saveDocumentL
  rw [List.find?_append]
  have h2 : List.find? (fun x : Document => x.id == i) [d] = none := by
    simp [Ne.symm hi]
  rw [h2]
  have h3 : List.find? (fun x : Document => x.id == i) (docs.filter (fun x => x.id != d.id)) =
      List.find? (fun x : Document => x.id == i) docs := by
    apply find?_filter_of_imp
    intro x hx
    have : x.id = i := by simpa using hx
    simp [this, hi]
  rw [h3]
  simp

theorem DocPres_save (docs : List Document) (d : Document)
    (hold : ∀ old, getDocumentL docs d.id = some old → old.updatedAt ≤ d.updatedAt) :
    DocPres docs (saveDocumentL docs d) := by
  intro i x hx
  by_cases hi : i = d.id
  · subst hi
    exact ⟨d, getDocumentL_save_self docs d, hold x hx⟩
  · exact ⟨x, by rw [getDocumentL_save_ne docs d i hi]; exact hx, le_refl _⟩

/-! ## Glob matcher correctness -/

theorem rmatchF_iff : ∀ (f : Nat) (ps : List GAtom) (s : List Char),
    ps.length + s.length < f → (rmatchF f ps s = true ↔ GlobSem ps s) := by
  intro f
  induction f with
  | zero => intro ps s h; omega
  | succ n ih =>
      intro ps s h
      match ps with
      | [] =>
          simp [rmatchF, GlobSem, List.isEmpty_iff]
      | .lit c :: ps' =>
          cases s with
          | nil => simp [rmatchF, GlobSem]
          | cons x xs =>
              have hlen : ps'.length + xs.length < n := by
                simp only [List.length_cons] at h; omega
              simp only [rmatchF, Bool.and_eq_true, beq_iff_eq, GlobSem]
              constructor
              · rintro ⟨h1, h2⟩
                exact ⟨x, xs, rfl, h1, (ih ps' xs hlen).mp h2⟩
              · rintro ⟨y, ys, heq, h1, h2⟩
                injection heq with h3 h4
                subst h3; subst h4
                exact ⟨h1, (ih ps' xs hlen).mpr h2⟩
      | .anychar :: ps' =>
          cases s with
          | nil => simp [rmatchF, GlobSem]
          | cons x xs =>
              have hlen : ps'.length + xs.length < n := by
                simp only [List.length_cons] at h; omega
              simp only [rmatchF, GlobSem]
              constructor
              · intro h2
                exact ⟨x, xs, rfl, (ih ps' xs hlen).mp h2⟩
              · rintro ⟨y, ys, heq, h2⟩
                injection heq with h3 h4
                subst h3; subst h4
                exact (ih ps' xs hlen).mpr h2
      | .dotstar :: ps' =>
          have hlen1 : ps'.length + s.length < n := by
            simp only [List.length_cons] at h; omega
          cases s with
          | nil =>
              simp only [rmatchF, Bool.or_eq_true, GlobSem]
              constructor
              · rintro (h2 | h2)
                · exact ⟨[], [], rfl, (ih ps' [] hlen1).mp h2⟩
                · exact absurd h2 (by simp)
              · rintro ⟨a, b, heq, h2⟩
                obtain ⟨ha, hb⟩ := List.append_eq_nil.mp heq.symm
                subst ha; subst hb
                exact Or.inl ((ih ps' [] hlen1).mpr h2)
          | cons x xs =>
              have hlen2 : (GAtom.dotstar :: ps').length + xs.length < n := by
                simp only [List.length_cons] at h ⊢; omega
              simp only [rmatchF, Bool.or_eq_true, GlobSem]
              constructor
              · rintro (h2 | h2)
                · exact ⟨[], x :: xs, rfl, (ih ps' (x :: xs) hlen1).mp h2⟩
                · have h3 := (ih (.dotstar :: ps') xs hlen2).mp h2
                  simp only [GlobSem] at h3
                  obtain ⟨a, b, heq, hsem⟩ := h3
                  exact ⟨x :: a, b, by rw [heq]; rfl, hsem⟩
              · rintro ⟨a, b, heq, hsem⟩
                cases a with
                | nil =>
                    simp only [List.nil_append] at heq
                    subst heq
                    exact Or.inl ((ih ps' (x :: xs) hlen1).mpr hsem)
                | cons y ys =>
                    injection heq with h3 h4
                    subst h3
                    refine Or.inr ((ih (.dotstar :: ps') xs hlen2).mpr ?_)
                    simp only [GlobSem]
                    exact ⟨ys, b, h4, hsem⟩

theorem matchGlob_iff (path pattern : String) :
    matchGlob path pattern = true ↔ GlobSem (globTranslate pattern.data) path.data := by
  unfold matchGlob
  apply rmatchF_iff
  simp [globTranslate]

/-! ## Crawl walk lemmas -/

theorem Inv_mono (env : Env) (source : SourceConfig) (rootPath : String) (maxDepth maxSize : Nat)
    (docs docs' : List Document) (hp : DocPres docs docs') :
    (∀ e, ∀ dirPath depth,
      InvEntry env source rootPath maxDepth maxSize docs dirPath e depth →
      InvEntry env source rootPath maxDepth maxSize docs' dirPath e depth) ∧
    (∀ es, ∀ dirPath depth,
      InvEntries env source rootPath maxDepth maxSize docs dirPath es depth →
      InvEntries env source rootPath maxDepth maxSize docs' dirPath es depth) := by
  apply fsInduction
  · intro n stt b io dirPath depth hInv hguard
    simp only [InvEntry] at hInv
    rcases hInv hguard with ⟨d, hget, hm⟩ | hnone
    · obtain ⟨d', hget', hle⟩ := hp _ d hget
      exact Or.inl ⟨d', hget', le_trans hm hle⟩
    · exact Or.inr hnone
  · intro n err es hQ dirPath depth hInv
    simp only [InvEntry] at hInv ⊢
    intro hguard
    exact hQ _ _ (hInv hguard)
  · intro dirPath depth _
    simp [InvEntries]
  · intro e rest hP hQ dirPath depth hInv
    simp only [InvEntries] at hInv ⊢
    exact ⟨hP _ _ hInv.1, hQ _ _ hInv.2⟩

theorem processFile_spec (C : CrawlCtx) (fullPath : String) (stat : FileStat) (bytes : List Nat)
    (ioErr : Option String) (st : Store) (r : CrawlResult) :
    StepSpec st r (processFile C fullPath stat bytes ioErr (st, r))
      (match ioErr with
       | some _ => (0, 1)
       | none =>
           if stat.size > C.maxSize then (0, 1)
           else if ¬ canParse fullPath then (0, 1)
           else (1, 0))
      (fun docs =>
        (ioErr = none ∧ stat.size ≤ C.maxSize ∧ canParse fullPath = true) →
        ((∃ d, getDocumentL docs (crawlerDocId C.env C.source fullPath) = some d ∧
               stat.mtime ≤ d.updatedAt) ∨
         (∀ n : Int, parseFile C.env n ⟨stat, bytes, none⟩ fullPath C.source.id = none)))
      (decide (stat.mtime ≤ C.now)) := by
  unfold StepSpec
  cases ioErr with
  | some msg =>
      refine ⟨by simp [processFile], by simp [processFile]; omega, by simp [processFile],
        by simp [processFile], by simp [processFile], ?_, ?_⟩
      · intro _; exact ⟨by simp [processFile], by simp [processFile]⟩
      · intro _
        refine ⟨by simp [processFile]; exact DocPres.rfl _, ?_⟩
        rintro ⟨hio, _, _⟩
        exact absurd hio (by simp)
  | none =>
      by_cases hsize : stat.size > C.maxSize
      · refine ⟨by simp [processFile, skipOne, hsize], by simp [processFile, skipOne, hsize]; omega,
          by simp [processFile, skipOne, hsize], by simp [processFile, skipOne, hsize],
          by simp [processFile, skipOne, hsize], ?_, ?_⟩
        · intro _; exact ⟨by simp [processFile, skipOne, hsize], by simp [processFile, skipOne, hsize]⟩
        · intro _
          refine ⟨by simp [processFile, skipOne, hsize]; exact DocPres.rfl _, ?_⟩
          rintro ⟨_, hs, _⟩
          omega
      · by_cases hcp : canParse fullPath = true
        · -- a candidate file
          have hnp : ¬ ¬ canParse fullPath = true := by simp [hcp]
          cases hex : getDocumentL st.documents (crawlerDocId C.env C.source fullPath) with
          | some ex =>
              by_cases hmt : stat.mtime ≤ ex.updatedAt
              · -- up to date: skip, store untouched
                have hout : processFile C fullPath stat bytes none (st, r) =
                    (st, { r with documentsFound := r.documentsFound + 1,
                                  documentsSkipped := r.documentsSkipped + 1 }) := by
                  simp [processFile, skipOne, hsize, hnp, Store.getDocument, hex, hmt]
                rw [hout]
                refine ⟨by simp [hsize, hnp, hcp], by simp [hsize, hnp, hcp]; omega, rfl, rfl, rfl,
                  fun _ => ⟨rfl, rfl⟩, ?_⟩
                intro _
                exact ⟨DocPres.rfl _, fun _ => Or.inl ⟨ex, hex, hmt⟩⟩
              · cases hpf : parseFile C.env C.now ⟨stat, bytes, none⟩ fullPath C.source.id with
                | some doc =>
                    have hout : processFile C fullPath stat bytes none (st, r) =
                        (st.saveDocument doc,
                         { r with documentsFound := r.documentsFound + 1,
                                  documentsProcessed := r.documentsProcessed + 1 }) := by
                      simp [processFile, skipOne, hsize, hnp, Store.getDocument, hex, hmt, hpf]
                    rw [hout]
                    have hid : doc.id = crawlerDocId C.env C.source fullPath :=
                      parseFile_id _ _ _ _ _ _ hpf
                    refine ⟨by simp [hsize, hnp, hcp], by simp [hsize, hnp, hcp]; omega,
                      rfl, rfl, rfl, ?_, ?_⟩
                    · intro hinv
                      rcases hinv ⟨rfl, Nat.le_of_not_lt hsize, hcp⟩ with ⟨d, hget, hm⟩ | hnone
                      · rw [hget] at hex
                        cases hex
                        exact absurd hm hmt
                      · rw [hnone C.now] at hpf
                        cases hpf
                    · intro hmtok
                      have hmtnow : stat.mtime ≤ C.now := by simpa using hmtok
                      have hupd : doc.updatedAt = stat.mtime := by
                        have h9 : doc.updatedAt = if stat.mtime > C.now then C.now else stat.mtime :=
                          parseFile_updatedAt _ _ _ _ _ _ hpf
                        have hng : ¬ stat.mtime > C.now := by omega
                        rw [h9, if_neg hng]
                      constructor
                      · show DocPres st.documents (saveDocumentL st.documents doc)
                        apply DocPres_save
                        intro old hold
                        rw [hid] at hold
                        rw [hold] at hex
                        cases hex
                        rw [hupd]
                        omega
                      · intro _
                        refine Or.inl ⟨doc, ?_, by rw [hupd]⟩
                        show getDocumentL (saveDocumentL st.documents doc)
                            (crawlerDocId C.env C.source fullPath) = some doc
                        rw [← hid]
                        exact getDocumentL_save_self _ _
                | none =>
                    have hout : processFile C fullPath stat bytes none (st, r) =
                        (st, { r with documentsFound := r.documentsFound + 1,
                                      documentsSkipped := r.documentsSkipped + 1 }) := by
                      simp [processFile, skipOne, hsize, hnp, Store.getDocument, hex, hmt, hpf]
                    rw [hout]
                    refine ⟨by simp [hsize, hnp, hcp], by simp [hsize, hnp, hcp]; omega, rfl, rfl, rfl,
                      fun _ => ⟨rfl, rfl⟩, ?_⟩
                    intro _
                    exact ⟨DocPres.rfl _, fun _ => Or.inr (parseFile_none_now _ _ _ _ _ hpf)⟩
          | none =>
              cases hpf : parseFile C.env C.now ⟨stat, bytes, none⟩ fullPath C.source.id with
              | some doc =>
                  have hout : processFile C fullPath stat bytes none (st, r) =
                      (st.saveDocument doc,
                       { r with documentsFound := r.documentsFound + 1,
                                documentsProcessed := r.documentsProcessed + 1 }) := by
                    simp [processFile, skipOne, hsize, hnp, Store.getDocument, hex, hpf]
                  rw [hout]
                  have hid : doc.id = crawlerDocId C.env C.source fullPath :=
                    parseFile_id _ _ _ _ _ _ hpf
                  refine ⟨by simp [hsize, hnp, hcp], by simp [hsize, hnp, hcp]; omega,
                    rfl, rfl, rfl, ?_, ?_⟩
                  · intro hinv
                    rcases hinv ⟨rfl, Nat.le_of_not_lt hsize, hcp⟩ with ⟨d, hget, hm⟩ | hnone
                    · rw [hget] at hex
                      cases hex
                    · rw [hnone C.now] at hpf
                      cases hpf
                  · intro hmtok
                    have hmtnow : stat.mtime ≤ C.now := by simpa using hmtok
                    have hupd : doc.updatedAt = stat.mtime := by
                      have h9 : doc.updatedAt = if stat.mtime > C.now then C.now else stat.mtime :=
                        parseFile_updatedAt _ _ _ _ _ _ hpf
                      have hng : ¬ stat.mtime > C.now := by omega
                      rw [h9, if_neg hng]
                    constructor
                    · show DocPres st.documents (saveDocumentL st.documents doc)
                      apply DocPres_save
                      intro old hold
                      rw [hid] at hold
                      rw [hold] at hex
                      cases hex
                    · intro _
                      refine Or.inl ⟨doc, ?_, by rw [hupd]⟩
                      show getDocumentL (saveDocumentL st.documents doc)
                          (crawlerDocId C.env C.source fullPath) = some doc
                      rw [← hid]
                      exact getDocumentL_save_self _ _
              | none =>
                  have hout : processFile C fullPath stat bytes none (st, r) =
                      (st, { r with documentsFound := r.documentsFound + 1,
                                    documentsSkipped := r.documentsSkipped + 1 }) := by
                    simp [processFile, skipOne, hsize, hnp, Store.getDocument, hex, hpf]
                  rw [hout]
                  refine ⟨by simp [hsize, hnp, hcp], by simp [hsize, hnp, hcp]; omega, rfl, rfl, rfl,
                    fun _ => ⟨rfl, rfl⟩, ?_⟩
                  intro _
                  exact ⟨DocPres.rfl _, fun _ => Or.inr (parseFile_none_now _ _ _ _ _ hpf)⟩
        · -- unsupported extension
          refine ⟨by simp [processFile, skipOne, hsize, hcp], ?_,
            by simp [processFile, skipOne, hsize, hcp], by simp [processFile, skipOne, hsize, hcp],
            by simp [processFile, skipOne, hsize, hcp], ?_, ?_⟩
          · simp [processFile, skipOne, hsize, hcp]
            omega
          · intro _
            exact ⟨by simp [processFile, skipOne, hsize, hcp], by simp [processFile, skipOne, hsize, hcp]⟩
          · intro _
            refine ⟨by simp [processFile, skipOne, hsize, hcp]; exact DocPres.rfl _, ?_⟩
            rintro ⟨_, _, hc⟩
            exact absurd hc hcp

theorem crawl_master (C : CrawlCtx) :
    (∀ e, ∀ dirPath depth st r, StepSpec st r
        (crawlEntry C dirPath e depth (st, r))
        (candEntry C.source C.rootPath C.maxDepth C.maxSize dirPath e depth)
        (fun docs => InvEntry C.env C.source C.rootPath C.maxDepth C.maxSize docs dirPath e depth)
        (mtimesOkE C.now e)) ∧
    (∀ es, ∀ dirPath depth st r, StepSpec st r
        (crawlEntries C dirPath es depth (st, r))
        (candEntries C.source C.rootPath C.maxDepth C.maxSize dirPath es depth)
        (fun docs => InvEntries C.env C.source C.rootPath C.maxDepth C.maxSize docs dirPath es depth)
        (mtimesOkL C.now es)) := by
  apply fsInduction
  · -- files
    intro n stt b io dirPath depth st r
    by_cases hsp : shouldProcessPath (relPath C.rootPath (dirPath ++ "/" ++ n)) C.source.filters = true
    · have hcd : candEntry C.source C.rootPath C.maxDepth C.maxSize dirPath (.file n stt b io) depth =
          (match io with
           | some _ => (0, 1)
           | none =>
               if stt.size > C.maxSize then (0, 1)
               else if ¬ canParse (dirPath ++ "/" ++ n) then (0, 1)
               else (1, 0)) := by
        simp only [candEntry]
        rw [if_neg (by simp [hsp])]
      have heq : crawlEntry C dirPath (.file n stt b io) depth (st, r) =
          processFile C (dirPath ++ "/" ++ n) stt b io (st, r) := by
        simp [crawlEntry, hsp]
      rw [heq, hcd]
      obtain ⟨h1, h2, h3, h4, h5, h6, h7⟩ := processFile_spec C (dirPath ++ "/" ++ n) stt b io st r
      refine ⟨h1, h2, h3, h4, h5, ?_, ?_⟩
      · intro hinv
        simp only [InvEntry] at hinv
        exact h6 (fun g => hinv ⟨hsp, g.1, g.2.1, g.2.2⟩)
      · intro hmt
        have hmt' : decide (stt.mtime ≤ C.now) = true := hmt
        obtain ⟨hpres, hinv⟩ := h7 hmt'
        refine ⟨hpres, ?_⟩
        simp only [InvEntry]
        intro g
        exact hinv ⟨g.2.1, g.2.2.1, g.2.2.2⟩
    · have hspf : shouldProcessPath (relPath C.rootPath (dirPath ++ "/" ++ n)) C.source.filters = false := by
        revert hsp; cases shouldProcessPath (relPath C.rootPath (dirPath ++ "/" ++ n)) C.source.filters <;> simp
      have heq : crawlEntry C dirPath (.file n stt b io) depth (st, r) =
          (st, { r with documentsSkipped := r.documentsSkipped + 1 }) := by
        simp [crawlEntry, skipOne, hspf]
      have hcd : candEntry C.source C.rootPath C.maxDepth C.maxSize dirPath (.file n stt b io) depth =
          (0, 1) := by
        simp [candEntry, hspf]
      rw [heq, hcd]
      refine ⟨by simp, by simp; omega, rfl, rfl, rfl, fun _ => ⟨rfl, rfl⟩, ?_⟩
      intro _
      refine ⟨DocPres.rfl _, ?_⟩
      simp only [InvEntry]
      rintro ⟨hsp', _, _, _⟩
      rw [hspf] at hsp'
      cases hsp'
  · -- directories
    intro n err es hQ dirPath depth st r
    by_cases hsp : shouldProcessPath (relPath C.rootPath (dirPath ++ "/" ++ n)) C.source.filters = true
    · by_cases hdep : C.maxDepth ≤ depth + 1
      · have heq : crawlEntry C dirPath (.dir n err es) depth (st, r) = (st, r) := by
          simp [crawlEntry, hsp, hdep]
        have hcd : candEntry C.source C.rootPath C.maxDepth C.maxSize dirPath (.dir n err es) depth =
            (0, 0) := by
          simp [candEntry, hsp, hdep]
        rw [heq, hcd]
        refine ⟨by simp, by simp, rfl, rfl, rfl, fun _ => ⟨rfl, rfl⟩, ?_⟩
        intro _
        refine ⟨DocPres.rfl _, ?_⟩
        simp only [InvEntry]
        rintro ⟨_, hd2, _⟩
        omega
      · cases err with
        | some msg =>
            have heq : crawlEntry C dirPath (.dir n (some msg) es) depth (st, r) =
                (st, { r with errors := r.errors ++
                  ["Error reading directory " ++ (dirPath ++ "/" ++ n) ++ ": " ++ msg] }) := by
              simp [crawlEntry, hsp, hdep]
            have hcd : candEntry C.source C.rootPath C.maxDepth C.maxSize dirPath
                (.dir n (some msg) es) depth = (0, 0) := by
              simp [candEntry, hsp, hdep]
            rw [heq, hcd]
            refine ⟨by simp, by simp, rfl, rfl, rfl, fun _ => ⟨rfl, rfl⟩, ?_⟩
            intro _
            refine ⟨DocPres.rfl _, ?_⟩
            simp only [InvEntry]
            rintro ⟨_, _, hre⟩
            cases hre
        | none =>
            have heq : crawlEntry C dirPath (.dir n none es) depth (st, r) =
                crawlEntries C (dirPath ++ "/" ++ n) es (depth + 1) (st, r) := by
              simp [crawlEntry, hsp, hdep]
            have hcd : candEntry C.source C.rootPath C.maxDepth C.maxSize dirPath
                (.dir n none es) depth =
                candEntries C.source C.rootPath C.maxDepth C.maxSize (dirPath ++ "/" ++ n) es
                  (depth + 1) := by
              simp [candEntry, hsp, hdep]
            rw [heq, hcd]
            obtain ⟨h1, h2, h3, h4, h5, h6, h7⟩ := hQ (dirPath ++ "/" ++ n) (depth + 1) st r
            refine ⟨h1, h2, h3, h4, h5, ?_, ?_⟩
            · intro hinv
              simp only [InvEntry] at hinv
              exact h6 (hinv ⟨hsp, by omega, by trivial⟩)
            · intro hmt
              have hmt' : mtimesOkL C.now es = true := hmt
              obtain ⟨hpres, hinv⟩ := h7 hmt'
              refine ⟨hpres, ?_⟩
              simp only [InvEntry]
              intro _
              exact hinv
    · have hspf : shouldProcessPath (relPath C.rootPath (dirPath ++ "/" ++ n)) C.source.filters = false := by
        revert hsp; cases shouldProcessPath (relPath C.rootPath (dirPath ++ "/" ++ n)) C.source.filters <;> simp
      have heq : crawlEntry C dirPath (.dir n err es) depth (st, r) =
          (st, { r with documentsSkipped := r.documentsSkipped + 1 }) := by
        simp [crawlEntry, skipOne, hspf]
      have hcd : candEntry C.source C.rootPath C.maxDepth C.maxSize dirPath (.dir n err es) depth =
          (0, 1) := by
        simp [candEntry, hspf]
      rw [heq, hcd]
      refine ⟨by simp, by simp; omega, rfl, rfl, rfl, fun _ => ⟨rfl, rfl⟩, ?_⟩
      intro _
      refine ⟨DocPres.rfl _, ?_⟩
      simp only [InvEntry]
      rintro ⟨hsp', _, _⟩
      rw [hspf] at hsp'
      cases hsp'
  · -- nil
    intro dirPath depth st r
    refine ⟨by simp [crawlEntries, candEntries], by simp [crawlEntries, candEntries],
      rfl, rfl, rfl, fun _ => ⟨rfl, rfl⟩, ?_⟩
    intro _
    exact ⟨DocPres.rfl _, by simp [InvEntries]⟩
  · -- cons
    intro e rest hP hQ dirPath depth st r
    rcases hout1 : crawlEntry C dirPath e depth (st, r) with ⟨st1, r1⟩
    have hstep := hP dirPath depth st r
    rw [hout1] at hstep
    have hrest := hQ dirPath depth st1 r1
    have hcr : crawlEntries C dirPath (e :: rest) depth (st, r) =
        crawlEntries C dirPath rest depth (st1, r1) := by
      simp [crawlEntries, hout1]
    have hcd : candEntries C.source C.rootPath C.maxDepth C.maxSize dirPath (e :: rest) depth =
        ((candEntry C.source C.rootPath C.maxDepth C.maxSize dirPath e depth).1 +
          (candEntries C.source C.rootPath C.maxDepth C.maxSize dirPath rest depth).1,
         (candEntry C.source C.rootPath C.maxDepth C.maxSize dirPath e depth).2 +
          (candEntries C.source C.rootPath C.maxDepth C.maxSize dirPath rest depth).2) := by
      simp [candEntries]
    rw [hcr, hcd]
    obtain ⟨e1, e2, e3, e4, e5, e6, e7⟩ := hstep
    obtain ⟨q1, q2, q3, q4, q5, q6, q7⟩ := hrest
    refine ⟨?_, ?_, q3.trans e3, q4.trans e4, q5.trans e5, ?_, ?_⟩
    · simp only at e1 q1 ⊢
      omega
    · simp only at e2 q2 ⊢
      omega
    · intro hinv
      simp only [InvEntries] at hinv
      obtain ⟨hst1, hr1⟩ := e6 hinv.1
      have hst1' : st1 = st := by rw [← hst1]
      have hinv2 : InvEntries C.env C.source C.rootPath C.maxDepth C.maxSize st1.documents
          dirPath rest depth := by rw [hst1']; exact hinv.2
      obtain ⟨hout, hpr⟩ := q6 hinv2
      refine ⟨hout.trans hst1', ?_⟩
      rw [hpr]
      simp only at hr1
      exact hr1
    · intro hmt
      have hmts : mtimesOkE C.now e = true ∧ mtimesOkL C.now rest = true := by
        have : (mtimesOkE C.now e && mtimesOkL C.now rest) = true := hmt
        simpa [Bool.and_eq_true] using this
      obtain ⟨hpres1, hinv1⟩ := e7 hmts.1
      obtain ⟨hpres2, hinv2⟩ := q7 hmts.2
      simp only at hpres1 hinv1
      refine ⟨DocPres.trans hpres1 hpres2, ?_⟩
      simp only [InvEntries]
      exact ⟨(Inv_mono C.env C.source C.rootPath C.maxDepth C.maxSize _ _ hpres2).1 e dirPath depth hinv1,
             hinv2⟩

/-! ## Run-level lemmas -/

theorem crawlSource_fatal (env : Env) (now : Int) (rootfs : RootFS) (source : SourceConfig)
    (st : Store) (h : source.type ≠ "local" ∨ rootIsDirectory rootfs = false) :
    (crawlSource env now rootfs source st).2.documentsFound = 0 ∧
    (crawlSource env now rootfs source st).2.documentsProcessed = 0 ∧
    (crawlSource env now rootfs source st).2.documentsSkipped = 0 ∧
    (crawlSource env now rootfs source st).1.documents = st.documents := by
  by_cases hty : source.type = "local"
  · rcases h with hty' | hro
    · exact absurd hty hty'
    · cases rootfs with
      | missing => simp [crawlSource, hty, crawlLocalFiles, Store.updateSourceStatus, emptyResult]
      | notDirectory => simp [crawlSource, hty, crawlLocalFiles, Store.updateSourceStatus, emptyResult]
      | directory readErr es => simp [rootIsDirectory] at hro
  · by_cases h2 : source.type = "git"
    · simp [crawlSource, hty, h2, Store.updateSourceStatus, emptyResult]
    · by_cases h3 : source.type = "web"
      · simp [crawlSource, hty, h2, h3, Store.updateSourceStatus, emptyResult]
      · by_cases h4 : source.type = "api"
        · simp [crawlSource, hty, h2, h3, h4, Store.updateSourceStatus, emptyResult]
        · simp [crawlSource, hty, h2, h3, h4, Store.updateSourceStatus, emptyResult]

theorem crawlSource_depth0 (env : Env) (now : Int) (readErr : Option String) (es : List FSEntry)
    (source : SourceConfig) (st : Store) (hty : source.type = "local")
    (hmd : jsOrNat (source.filters.getD ⟨none, none, none, none⟩).maxDepth 10 ≤ 0) :
    (crawlSource env now (.directory readErr es) source st).2.documentsFound = 0 ∧
    (crawlSource env now (.directory readErr es) source st).2.documentsProcessed = 0 ∧
    (crawlSource env now (.directory readErr es) source st).2.documentsSkipped = 0 ∧
    (crawlSource env now (.directory readErr es) source st).1.documents = st.documents := by
  simp [crawlSource, hty, crawlLocalFiles, hmd, Store.updateSourceStatus, Store.saveSource,
    emptyResult]

theorem crawlSource_readErr (env : Env) (now : Int) (msg : String) (es : List FSEntry)
    (source : SourceConfig) (st : Store) (hty : source.type = "local")
    (hmd : ¬ jsOrNat (source.filters.getD ⟨none, none, none, none⟩).maxDepth 10 ≤ 0) :
    (crawlSource env now (.directory (some msg) es) source st).2.documentsFound = 0 ∧
    (crawlSource env now (.directory (some msg) es) source st).2.documentsProcessed = 0 ∧
    (crawlSource env now (.directory (some msg) es) source st).2.documentsSkipped = 0 ∧
    (crawlSource env now (.directory (some msg) es) source st).1.documents = st.documents := by
  simp [crawlSource, hty, crawlLocalFiles, hmd, Store.updateSourceStatus, Store.saveSource,
    emptyResult]

theorem crawlSource_walk (env : Env) (now : Int) (es : List FSEntry)
    (source : SourceConfig) (st : Store) (hty : source.type = "local")
    (hmd : ¬ jsOrNat (source.filters.getD ⟨none, none, none, none⟩).maxDepth 10 ≤ 0) :
    (crawlSource env now (.directory none es) source st).2 =
      (crawlEntries ⟨env, now, source, stripFileScheme source.url,
          jsOrNat (source.filters.getD ⟨none, none, none, none⟩).maxDepth 10,
          jsOrNat (source.filters.getD ⟨none, none, none, none⟩).maxSize (10 * 1024 * 1024)⟩
        (stripFileScheme source.url) es 0
        (st.updateSourceStatus ⟨source.id, "crawling", some now, none, 0, 0, 0, none⟩,
         emptyResult)).2 ∧
    (crawlSource env now (.directory none es) source st).1.documents =
      (crawlEntries ⟨env, now, source, stripFileScheme source.url,
          jsOrNat (source.filters.getD ⟨none, none, none, none⟩).maxDepth 10,
          jsOrNat (source.filters.getD ⟨none, none, none, none⟩).maxSize (10 * 1024 * 1024)⟩
        (stripFileScheme source.url) es 0
        (st.updateSourceStatus ⟨source.id, "crawling", some now, none, 0, 0, 0, none⟩,
         emptyResult)).1.documents := by
  constructor <;>
    simp [crawlSource, hty, crawlLocalFiles, hmd, Store.updateSourceStatus, Store.saveSource]

/-- C2, counterexample to the claim as stated.  With the crawl clock at 50,
`cexTree` holds a markdown file with mtime 100 (in the future), a normal
markdown file, and two `.xyz` files of unsupported extension.  Crawling
`srcLocal` twice with no filesystem change in between, the second run
reports `documentsProcessed = 1` (the future-mtime file is re-parsed: its
stored `updatedAt` was clamped to 50, which is not ≥ 100) and
`documentsSkipped = 3 ≠ 2 = documentsFound` (the unsupported files are
counted in `documentsSkipped` but never in `documentsFound`), refuting
both `documentsProcessed = 0` and `documentsSkipped = documentsFound`. -/
theorem c2_counterexample :
    ((crawlSource mockEnv 50 cexTree srcLocal
        (crawlSource mockEnv 50 cexTree srcLocal emptyStore).1).2.documentsProcessed = 1 ∧
     (crawlSource mockEnv 50 cexTree srcLocal
        (crawlSource mockEnv 50 cexTree srcLocal emptyStore).1).2.documentsFound = 2 ∧
     (crawlSource mockEnv 50 cexTree srcLocal
        (crawlSource mockEnv 50 cexTree srcLocal emptyStore).1).2.documentsSkipped = 3) ∧
    ¬ ((crawlSource mockEnv 50 cexTree srcLocal
          (crawlSource mockEnv 50 cexTree srcLocal emptyStore).1).2.documentsProcessed = 0 ∧
       (crawlSource mockEnv 50 cexTree srcLocal
          (crawlSource mockEnv 50 cexTree srcLocal emptyStore).1).2.documentsSkipped =
        (crawlSource mockEnv 50 cexTree srcLocal
          (crawlSource mockEnv 50 cexTree srcLocal emptyStore).1).2.documentsFound) := by
  refine ⟨⟨rfl, rfl, rfl⟩, ?_⟩
  rintro ⟨h, -⟩
  have h1 : (crawlSource mockEnv 50 cexTree srcLocal
      (crawlSource mockEnv 50 cexTree srcLocal emptyStore).1).2.documentsProcessed = 1 := rfl
  rw [h] at h1
  cases h1

/-- C2 (amended): during a run, a candidate file whose derived id already
has a stored Document with `updatedAt` ≥ the file's mtime is skipped, with
the found counter bumped, no store write and no extractor call; and —
provided no file's mtime is in the future of the first run's clock —
crawling the same source twice with no filesystem change in between makes
the second run report `documentsProcessed = 0`, the same `documentsFound`
as the first run, and `documentsSkipped` equal to the first run's
`documentsSkipped` plus its `documentsProcessed` (every candidate file is
skipped; entries rejected by filters, size or extension are counted in
`documentsSkipped` equally in both runs). -/
theorem c2_recrawl_idempotent (env : Env) (now1 now2 : Int) (rootfs : RootFS)
    (source : SourceConfig) (st : Store)
    (hm : rootMtimesOk now1 rootfs = true) :
    (∀ (C : CrawlCtx) (fullPath : String) (stat : FileStat) (bytes : List Nat)
        (st' : Store) (r : CrawlResult) (d : Document),
        stat.size ≤ C.maxSize → canParse fullPath = true →
        getDocumentL st'.documents (crawlerDocId C.env C.source fullPath) = some d →
        stat.mtime ≤ d.updatedAt →
        processFile C fullPath stat bytes none (st', r) =
          (st', { r with documentsFound := r.documentsFound + 1,
                         documentsSkipped := r.documentsSkipped + 1 })) ∧
    (crawlSource env now2 rootfs source
        (crawlSource env now1 rootfs source st).1).2.documentsProcessed = 0 ∧
    (crawlSource env now2 rootfs source
        (crawlSource env now1 rootfs source st).1).2.documentsFound
      = (crawlSource env now1 rootfs source st).2.documentsFound ∧
    (crawlSource env now2 rootfs source
        (crawlSource env now1 rootfs source st).1).2.documentsSkipped
      = (crawlSource env now1 rootfs source st).2.documentsSkipped
        + (crawlSource env now1 rootfs source st).2.documentsProcessed := by
  constructor
  · intro C fullPath stat bytes st' r d hsz hcp hget hmt
    have hns : ¬ stat.size > C.maxSize := by omega
    have hnp : ¬ ¬ canParse fullPath = true := by simp [hcp]
    simp [processFile, skipOne, hns, hnp, Store.getDocument, hget, hmt]
  · by_cases hty : source.type = "local"
    · cases rootfs with
      | missing =>
          obtain ⟨f1, p1, s1, d1⟩ := crawlSource_fatal env now1 .missing source st (Or.inr rfl)
          obtain ⟨f2, p2, s2, d2⟩ :=
            crawlSource_fatal env now2 .missing source _ (Or.inr rfl)
          exact ⟨p2, by rw [f2, f1], by rw [s2, s1, p1]⟩
      | notDirectory =>
          obtain ⟨f1, p1, s1, d1⟩ :=
            crawlSource_fatal env now1 .notDirectory source st (Or.inr rfl)
          obtain ⟨f2, p2, s2, d2⟩ :=
            crawlSource_fatal env now2 .notDirectory source _ (Or.inr rfl)
          exact ⟨p2, by rw [f2, f1], by rw [s2, s1, p1]⟩
      | directory readErr es =>
          simp only [rootMtimesOk] at hm
          by_cases hmd : jsOrNat (source.filters.getD ⟨none, none, none, none⟩).maxDepth 10 ≤ 0
          · obtain ⟨f1, p1, s1, d1⟩ :=
              crawlSource_depth0 env now1 readErr es source st hty hmd
            obtain ⟨f2, p2, s2, d2⟩ :=
              crawlSource_depth0 env now2 readErr es source _ hty hmd
            exact ⟨p2, by rw [f2, f1], by rw [s2, s1, p1]⟩
          · cases readErr with
            | some msg =>
                obtain ⟨f1, p1, s1, d1⟩ :=
                  crawlSource_readErr env now1 msg es source st hty hmd
                obtain ⟨f2, p2, s2, d2⟩ :=
                  crawlSource_readErr env now2 msg es source _ hty hmd
                exact ⟨p2, by rw [f2, f1], by rw [s2, s1, p1]⟩
            | none =>
                obtain ⟨r1eq, d1eq⟩ := crawlSource_walk env now1 es source st hty hmd
                obtain ⟨r2eq, d2eq⟩ :=
                  crawlSource_walk env now2 es source
                    (crawlSource env now1 (.directory none es) source st).1 hty hmd
                obtain ⟨a1, a2, -, -, -, -, a7⟩ :=
                  (crawl_master ⟨env, now1, source, stripFileScheme source.url,
                      jsOrNat (source.filters.getD ⟨none, none, none, none⟩).maxDepth 10,
                      jsOrNat (source.filters.getD ⟨none, none, none, none⟩).maxSize
                        (10 * 1024 * 1024)⟩).2
                    es (stripFileScheme source.url) 0
                    (st.updateSourceStatus ⟨source.id, "crawling", some now1, none, 0, 0, 0, none⟩)
                    emptyResult
                obtain ⟨-, hinv⟩ := a7 hm
                obtain ⟨b1, b2, -, -, -, b6, -⟩ :=
                  (crawl_master ⟨env, now2, source, stripFileScheme source.url,
                      jsOrNat (source.filters.getD ⟨none, none, none, none⟩).maxDepth 10,
                      jsOrNat (source.filters.getD ⟨none, none, none, none⟩).maxSize
                        (10 * 1024 * 1024)⟩).2
                    es (stripFileScheme source.url) 0
                    ((crawlSource env now1 (.directory none es) source st).1.updateSourceStatus
                      ⟨source.id, "crawling", some now2, none, 0, 0, 0, none⟩)
                    emptyResult
                obtain ⟨-, bpr⟩ := b6 (by
                  show InvEntries env source (stripFileScheme source.url) _ _ _ _ es 0
                  rw [show ((crawlSource env now1 (.directory none es) source st).1.updateSourceStatus
                      ⟨source.id, "crawling", some now2, none, 0, 0, 0, none⟩).documents =
                      (crawlSource env now1 (.directory none es) source st).1.documents from rfl]
                  rw [d1eq]
                  exact hinv)
                simp only [emptyResult] at a1 a2 b1 b2 bpr
                rw [r1eq, r2eq]
                simp only [emptyResult]
                exact ⟨bpr, by omega, by omega⟩
    · obtain ⟨f1, p1, s1, d1⟩ := crawlSource_fatal env now1 rootfs source st (Or.inl hty)
      obtain ⟨f2, p2, s2, d2⟩ := crawlSource_fatal env now2 rootfs source _ (Or.inl hty)
      exact ⟨p2, by rw [f2, f1], by rw [s2, s1, p1]⟩

/-- Witness for the amended C2 theorem at a concrete one-file tree. -/
theorem c2_recrawl_idempotent_witness :
    rootMtimesOk 5 okTree = true ∧
    (crawlSource mockEnv 6 okTree srcLocal
        (crawlSource mockEnv 5 okTree srcLocal emptyStore).1).2.documentsProcessed = 0 ∧
    (crawlSource mockEnv 6 okTree srcLocal
        (crawlSource mockEnv 5 okTree srcLocal emptyStore).1).2.documentsFound
      = (crawlSource mockEnv 5 okTree srcLocal emptyStore).2.documentsFound ∧
    (crawlSource mockEnv 6 okTree srcLocal
        (crawlSource mockEnv 5 okTree srcLocal emptyStore).1).2.documentsSkipped
      = (crawlSource mockEnv 5 okTree srcLocal emptyStore).2.documentsSkipped
        + (crawlSource mockEnv 5 okTree srcLocal emptyStore).2.documentsProcessed :=
  ⟨rfl, (c2_recrawl_idempotent mockEnv 5 6 okTree srcLocal emptyStore rfl).2.1,
    (c2_recrawl_idempotent mockEnv 5 6 okTree srcLocal emptyStore rfl).2.2.1,
    (c2_recrawl_idempotent mockEnv 5 6 okTree srcLocal emptyStore rfl).2.2.2⟩

theorem crawlSource_log_success (env : Env) (now : Int) (readErr : Option String)
    (es : List FSEntry) (source : SourceConfig) (st : Store) (hty : source.type = "local") :
    (crawlSource env now (.directory readErr es) source st).1.statusLog =
      st.statusLog ++ [⟨source.id, "crawling", some now, none, 0, 0, 0, none⟩,
        ⟨source.id, "success", some now, none,
          (crawlSource env now (.directory readErr es) source st).2.documentsFound,
          (crawlSource env now (.directory readErr es) source st).2.documentsProcessed,
          (crawlSource env now (.directory readErr es) source st).2.documentsSkipped, some 0⟩] := by
  by_cases hmd : jsOrNat (source.filters.getD ⟨none, none, none, none⟩).maxDepth 10 ≤ 0
  · simp [crawlSource, hty, crawlLocalFiles, hmd, Store.updateSourceStatus, Store.saveSource,
      emptyResult]
  · cases readErr with
    | some msg =>
        simp [crawlSource, hty, crawlLocalFiles, hmd, Store.updateSourceStatus, Store.saveSource,
          emptyResult]
    | none =>
        obtain ⟨-, -, -, -, l5, -, -⟩ :=
          (crawl_master ⟨env, now, source, stripFileScheme source.url,
              jsOrNat (source.filters.getD ⟨none, none, none, none⟩).maxDepth 10,
              jsOrNat (source.filters.getD ⟨none, none, none, none⟩).maxSize
                (10 * 1024 * 1024)⟩).2
            es (stripFileScheme source.url) 0
            (st.updateSourceStatus ⟨source.id, "crawling", some now, none, 0, 0, 0, none⟩)
            emptyResult
        simp only [Store.updateSourceStatus] at l5
        simp [crawlSource, hty, crawlLocalFiles, hmd, Store.updateSourceStatus, Store.saveSource,
          l5]

/-- C4: each `Run` writes Status exactly twice — `crawling` at the start,
then exactly one terminal status, `success` or `error`; the terminal
status is `error` precisely when the source type is not the implemented
`local` or the root is not an accessible directory, and never because of
per-file or per-directory errors accumulated during the walk. -/
theorem c4_status_lifecycle (env : Env) (now : Int) (rootfs : RootFS) (source : SourceConfig)
    (st : Store) :
    ∃ s1 s2 : SourceStatus,
      (crawlSource env now rootfs source st).1.statusLog = st.statusLog ++ [s1, s2] ∧
      s1.status = "crawling" ∧
      (s2.status = "success" ∨ s2.status = "error") ∧
      (s2.status = "error" ↔ (source.type ≠ "local" ∨ rootIsDirectory rootfs = false)) := by
  by_cases hty : source.type = "local"
  · cases rootfs with
    | missing =>
        refine ⟨⟨source.id, "crawling", some now, none, 0, 0, 0, none⟩,
          ⟨source.id, "error", some now,
            some ("Cannot access path: " ++ stripFileScheme source.url), 0, 0, 0, some 0⟩,
          ?_, rfl, Or.inr rfl, ?_⟩
        · simp [crawlSource, hty, crawlLocalFiles, Store.updateSourceStatus, emptyResult]
        · simp [rootIsDirectory]
    | notDirectory =>
        refine ⟨⟨source.id, "crawling", some now, none, 0, 0, 0, none⟩,
          ⟨source.id, "error", some now,
            some ("Cannot access path: " ++ stripFileScheme source.url), 0, 0, 0, some 0⟩,
          ?_, rfl, Or.inr rfl, ?_⟩
        · simp [crawlSource, hty, crawlLocalFiles, Store.updateSourceStatus, emptyResult]
        · simp [rootIsDirectory]
    | directory readErr es =>
        refine ⟨⟨source.id, "crawling", some now, none, 0, 0, 0, none⟩,
          ⟨source.id, "success", some now, none,
            (crawlSource env now (.directory readErr es) source st).2.documentsFound,
            (crawlSource env now (.directory readErr es) source st).2.documentsProcessed,
            (crawlSource env now (.directory readErr es) source st).2.documentsSkipped, some 0⟩,
          crawlSource_log_success env now readErr es source st hty, rfl, Or.inl rfl, ?_⟩
        constructor
        · intro h; simp at h
        · rintro (h | h)
          · exact absurd hty h
          · simp [rootIsDirectory] at h
  · by_cases h2 : source.type = "git"
    · refine ⟨⟨source.id, "crawling", some now, none, 0, 0, 0, none⟩,
        ⟨source.id, "error", some now, some "Git sources not yet implemented", 0, 0, 0, some 0⟩,
        ?_, rfl, Or.inr rfl, by simp [hty]⟩
      simp [crawlSource, hty, h2, Store.updateSourceStatus, emptyResult]
    · by_cases h3 : source.type = "web"
      · refine ⟨⟨source.id, "crawling", some now, none, 0, 0, 0, none⟩,
          ⟨source.id, "error", some now, some "Web sources not yet implemented", 0, 0, 0, some 0⟩,
          ?_, rfl, Or.inr rfl, by simp [hty]⟩
        simp [crawlSource, hty, h2, h3, Store.updateSourceStatus, emptyResult]
      · by_cases h4 : source.type = "api"
        · refine ⟨⟨source.id, "crawling", some now, none, 0, 0, 0, none⟩,
            ⟨source.id, "error", some now, some "API sources not yet implemented", 0, 0, 0, some 0⟩,
            ?_, rfl, Or.inr rfl, by simp [hty]⟩
          simp [crawlSource, hty, h2, h3, h4, Store.updateSourceStatus, emptyResult]
        · refine ⟨⟨source.id, "crawling", some now, none, 0, 0, 0, none⟩,
            ⟨source.id, "error", some now, some ("Unknown source type: " ++ source.type),
              0, 0, 0, some 0⟩,
            ?_, rfl, Or.inr rfl, by simp [hty]⟩
          simp [crawlSource, hty, h2, h3, h4, Store.updateSourceStatus, emptyResult]

/-! ## Claim theorems: identity, extraction, cascade -/

/-- C1: for every `(sourceId, path)` pair the Document id the Extractor
produces is `sha256(sourceId + ':' + path)` — the very id the Crawler
computes for its skip check — independent of the file's bytes, stat data
and the clock; two parses of the same `(sourceId, path)` always carry the
same id. -/
theorem c1_document_id_stable (env : Env) (source : SourceConfig) (fullPath : String)
    (now now' : Int) (f g : FileEntry) (d : Document)
    (hd : parseFile env now f fullPath source.id = some d) :
    d.id = crawlerDocId env source fullPath ∧
    (∀ e : Document, parseFile env now' g fullPath source.id = some e → e.id = d.id) := by
  have h1 : d.id = env.sha256hex (source.id ++ ":" ++ fullPath) :=
    parseFile_id env now f fullPath source.id d hd
  refine ⟨h1, ?_⟩
  intro e he
  rw [parseFile_id env now' g fullPath source.id e he, h1]

/-- Witness for C1 at a concrete markdown file: the id of the parsed
Document equals the crawler's derived id. -/
theorem c1_document_id_stable_witness :
    (parseFile mockEnv 0 ⟨⟨10, 1, 0⟩, [1], none⟩ "/docs/a.md" srcLocal.id).map (fun d => d.id)
      = some (crawlerDocId mockEnv srcLocal "/docs/a.md") := by
  have hsome : (parseFile mockEnv 0 ⟨⟨10, 1, 0⟩, [1], none⟩ "/docs/a.md" srcLocal.id).isSome
      = true := rfl
  obtain ⟨d, hd⟩ := Option.isSome_iff_exists.mp hsome
  rw [hd, Option.map_some']
  exact congrArg some
    (c1_document_id_stable mockEnv srcLocal "/docs/a.md" 0 7 ⟨⟨10, 1, 0⟩, [1], none⟩
      ⟨⟨99, 2, 3⟩, [9, 9], none⟩ d hd).1

/-- C3, counterexample to the claim as stated: a markdown file whose
front matter fails to parse (`gray-matter` throws) makes `parseFile`
return `none`, although the file was not excluded by the caller's logic
(`canParse` accepts it and it reached the Extractor) and no degraded
Document is produced. -/
theorem c3_counterexample :
    parseFile badMatterEnv 0 ⟨⟨10, 1, 0⟩, [1], none⟩ "/docs/notes.md" "s1" = none ∧
    canParse "/docs/notes.md" = true :=
  ⟨rfl, rfl⟩

/-- C3 (amended): the Extractor itself never throws; a PDF that fails to
decode yields the degraded placeholder Document carrying the byte length
and the error message in `metadata` (so a `.pdf` file with readable bytes
never yields `none`), and JSON that fails to parse degrades to text
handling — but for the other formats a throwing parser (e.g. markdown
front matter) makes `parseFile` return `none` even though the caller's
logic had not excluded the file. -/
theorem c3_extractor_degradation :
    (∀ (env : Env) (buffer : List Nat) (msg : String),
        env.pdfParse buffer = .error msg →
        parsePDF env buffer =
          ⟨"PDF Document", "[PDF file - " ++ toString buffer.length ++ " bytes]",
           [("size", .num buffer.length), ("type", .str "pdf"), ("parseError", .str msg)],
           none⟩) ∧
    (∀ (env : Env) (s : String) (msg : String),
        env.jsonParse s = .error msg → parseJSON env s = parseText s) ∧
    (∀ (env : Env) (now : Int) (f : FileEntry) (p sid : String),
        f.ioError = none → lowerStr (extname p) = ".pdf" →
        (parseFile env now f p sid).isSome = true) ∧
    (∀ (env : Env) (now : Int) (f : FileEntry) (p sid : String) (msg : String),
        f.ioError = none → lowerStr (extname p) = ".md" →
        env.matter (env.utf8Decode f.bytes) = .error msg →
        parseFile env now f p sid = none) := by
  refine ⟨?_, ?_, ?_, ?_⟩
  · intro env buffer msg h
    simp [parsePDF, h]
  · intro env s msg h
    simp [parseJSON, h]
  · intro env now f p sid hio hext
    obtain ⟨fst, fbytes, fio⟩ := f
    simp only at hio
    subst hio
    simp only [parseFile, hext]
    have hd : dispatchParse env ".pdf" fbytes = .ok (parsePDF env fbytes, "pdf") := by
      simp [dispatchParse]
    rw [hd]
    rfl
  · intro env now f p sid msg hio hext hmat
    obtain ⟨fst, fbytes, fio⟩ := f
    simp only at hio
    subst hio
    simp only [parseFile, hext]
    have hd : dispatchParse env ".md" fbytes = .error msg := by
      simp [dispatchParse, parseMarkdown, hmat, Except.map]
    rw [hd]

/-- Witness for the amended C3 at concrete inputs: the degraded PDF
placeholder, JSON falling back to text, a PDF file parsing to a Document,
and a markdown front-matter failure yielding `none`. -/
theorem c3_extractor_degradation_witness :
    mockEnv.pdfParse [1, 2, 3] = .error "Invalid PDF structure" ∧
    parsePDF mockEnv [1, 2, 3] =
      ⟨"PDF Document", "[PDF file - 3 bytes]",
       [("size", .num 3), ("type", .str "pdf"), ("parseError", .str "Invalid PDF structure")],
       none⟩ ∧
    parseJSON mockEnv "not json" = parseText "not json" ∧
    (parseFile mockEnv 0 ⟨⟨10, 1, 0⟩, [1, 2, 3], none⟩ "/docs/doc.pdf" "s1").isSome = true ∧
    parseFile badMatterEnv 0 ⟨⟨10, 1, 0⟩, [1], none⟩ "/docs/b.md" "s1" = none :=
  ⟨rfl,
   c3_extractor_degradation.1 mockEnv [1, 2, 3] "Invalid PDF structure" rfl,
   c3_extractor_degradation.2.1 mockEnv "not json" "Unexpected token" rfl,
   c3_extractor_degradation.2.2.1 mockEnv 0 ⟨⟨10, 1, 0⟩, [1, 2, 3], none⟩ "/docs/doc.pdf" "s1"
     rfl rfl,
   c3_extractor_degradation.2.2.2 badMatterEnv 0 ⟨⟨10, 1, 0⟩, [1], none⟩ "/docs/b.md" "s1"
     "YAMLException: bad indentation" rfl rfl rfl⟩

/-- C5: deleting a Source removes every Document with that `sourceId`,
its Status row, and the Source row itself: afterwards the Store holds no
Document for the sourceId, no Status row and no Source row. -/
theorem c5_cascade_delete (st : Store) (id : String) :
    (st.deleteSource id).1.documents.filter (fun d => d.sourceId == id) = [] ∧
    (st.deleteSource id).1.getSourceStatus id = none ∧
    (st.deleteSource id).1.getSource id = none := by
  refine ⟨?_, ?_, ?_⟩
  · rw [List.filter_eq_nil_iff]
    intro d hd
    have := (List.mem_filter.mp hd).2
    simp only [bne_iff_ne, ne_eq] at this
    simp [this]
  · rw [Store.getSourceStatus, List.find?_eq_none]
    intro s hs
    have := (List.mem_filter.mp hs).2
    simp only [bne_iff_ne, ne_eq] at this
    simp [this]
  · rw [Store.getSource, List.find?_eq_none]
    intro s hs
    have := (List.mem_filter.mp hs).2
    simp only [bne_iff_ne, ne_eq] at this
    simp [this]

/-- C6: glob matching realizes the spec semantics (`*` any run of
characters, `?` exactly one character, literals case-insensitive); filter
evaluation requires a present nonempty `include` list to be matched by at
least one pattern and rejects on any `exclude` match regardless of
`include`; concretely, with `include = ["*.md"]` a `.txt` file is counted
in `documentsSkipped` and never reaches the Extractor (nothing is stored),
and with `exclude = ["drafts/**"]` a file under `drafts/` is skipped even
though it matches `include = ["*"]`. -/
theorem c6_filter_evaluation :
    (∀ path pattern : String,
        matchGlob path pattern = true ↔ GlobSem (globTranslate pattern.data) path.data) ∧
    (∀ (rel : String) (fs : Filters),
        shouldProcessPath rel (some fs) = true ↔
          ((∀ pats, fs.«include» = some pats → pats ≠ [] →
              ∃ pattern ∈ pats, matchGlob rel pattern = true) ∧
           (∀ pats pattern, fs.exclude = some pats → pattern ∈ pats →
              matchGlob rel pattern = false))) ∧
    ((crawlSource mockEnv 5 txtTree srcOnlyMd emptyStore).2.documentsSkipped = 1 ∧
     (crawlSource mockEnv 5 txtTree srcOnlyMd emptyStore).2.documentsFound = 0 ∧
     (crawlSource mockEnv 5 txtTree srcOnlyMd emptyStore).1.documents = []) ∧
    (matchGlob "drafts/x.md" "*" = true ∧
     matchGlob "drafts/x.md" "drafts/**" = true ∧
     (crawlSource mockEnv 5 draftsTree srcNoDrafts emptyStore).2.documentsSkipped = 1 ∧
     (crawlSource mockEnv 5 draftsTree srcNoDrafts emptyStore).2.documentsFound = 0 ∧
     (crawlSource mockEnv 5 draftsTree srcNoDrafts emptyStore).1.documents = []) := by
  refine ⟨matchGlob_iff, ?_, ⟨rfl, rfl, rfl⟩, ⟨rfl, rfl, rfl, rfl, rfl⟩⟩
  intro rel fs
  simp only [shouldProcessPath]
  constructor
  · intro h
    rw [Bool.and_eq_true] at h
    obtain ⟨hinc, hexc⟩ := h
    constructor
    · intro pats hp hne
      simp only [hp] at hinc
      have hlen : pats.length > 0 := List.length_pos.mpr hne
      rw [if_pos hlen] at hinc
      obtain ⟨pattern, hpm, hpt⟩ := List.any_eq_true.mp hinc
      exact ⟨pattern, hpm, hpt⟩
    · intro pats pattern hp hmem
      simp only [hp] at hexc
      have hlen : pats.length > 0 := List.length_pos.mpr (List.ne_nil_of_mem hmem)
      rw [if_pos hlen] at hexc
      rw [Bool.not_eq_true'] at hexc
      have := List.any_eq_false.mp hexc pattern hmem
      simpa using this
  · rintro ⟨hincOK, hexcOK⟩
    rw [Bool.and_eq_true]
    constructor
    · cases hi : fs.«include» with
      | none => rfl
      | some pats =>
          show (if pats.length > 0 then pats.any fun pattern => matchGlob rel pattern else true)
            = true
          by_cases hlen : pats.length > 0
          · rw [if_pos hlen]
            obtain ⟨pattern, hpm, hpt⟩ :=
              hincOK pats hi (by intro hnil; subst hnil; simp at hlen)
            exact List.any_eq_true.mpr ⟨pattern, hpm, hpt⟩
          · rw [if_neg hlen]
    · cases he : fs.exclude with
      | none => rfl
      | some pats =>
          show (!(if pats.length > 0 then pats.any fun pattern => matchGlob rel pattern else false))
            = true
          by_cases hlen : pats.length > 0
          · rw [if_pos hlen, Bool.not_eq_true']
            apply List.any_eq_false.mpr
            intro pattern hmem
            simp [hexcOK pats pattern he hmem]
          · rw [if_neg hlen]
            rfl

/-! ## Claim theorems: search -/

theorem filterStage_mem (o : Option (List String)) (p : List String → Document × Rat → Bool)
    (rs : List (Document × Rat)) (r : Document × Rat) (hr : r ∈ filterStage o p rs) :
    r ∈ rs ∧ (∀ xs, o = some xs → xs ≠ [] → p xs r = true) := by
  cases o with
  | none =>
      exact ⟨hr, by intro xs hxs; cases hxs⟩
  | some xs =>
      by_cases hlen : xs.length > 0
      · rw [show filterStage (some xs) p rs = rs.filter (p xs) from by
          simp [filterStage, hlen]] at hr
        obtain ⟨hmem, hp⟩ := List.mem_filter.mp hr
        exact ⟨hmem, by intro xs' hxs' _; cases hxs'; exact hp⟩
      · rw [show filterStage (some xs) p rs = rs from by simp [filterStage, hlen]] at hr
        refine ⟨hr, ?_⟩
        intro xs' hxs' hne
        cases hxs'
        exact absurd (List.length_pos.mpr hne) hlen

theorem search_eq (env : Env) (now : Int) (st : Store) (ss : SearchState) (query : String)
    (opts : SearchOptions) :
    search env now st ss query opts =
      searchBody env query opts
        (if (st.getDocumentStats now).lastUpdated > ss.lastIndexUpdate
         then rebuildIndex now st else ss) := rfl

theorem searchBody_snd (env : Env) (query : String) (opts : SearchOptions) (ss1 : SearchState) :
    (searchBody env query opts ss1).2 = ss1 := by
  unfold searchBody
  split <;> rfl

theorem search_length_le (env : Env) (now : Int) (st : Store) (ss : SearchState)
    (query : String) (opts : SearchOptions) :
    (search env now st ss query opts).1.length ≤ opts.limit.getD 50 := by
  rw [search_eq]
  generalize (if (st.getDocumentStats now).lastUpdated > ss.lastIndexUpdate
      then rebuildIndex now st else ss) = ss1
  unfold searchBody
  split
  · simp
  · show ((((postFilter opts _).take (opts.limit.getD 50)).map _ : List DocumentSearchResult)).length
        ≤ opts.limit.getD 50
    rw [List.length_map]
    exact List.length_take_le _ _

/-- C7: every result `search` returns satisfies all the given
restrictions (`sourceId` in `sourceIds`, `type` in `types`, `tags`
intersecting the requested `tags`, whenever present and nonempty); at
most `limit` results are returned; and on the non-degenerate path the
result is exactly the post-match filters applied to the fuse ranking
over-fetched with `limit * 2`, truncated to `limit` afterwards — filters
after ranking and before truncation. -/
theorem c7_search_post_filters (env : Env) (now : Int) (st : Store) (ss : SearchState)
    (query : String) (opts : SearchOptions) :
    (∀ r ∈ (search env now st ss query opts).1,
       (∀ ids, opts.sourceIds = some ids → ids ≠ [] → r.document.sourceId ∈ ids) ∧
       (∀ ts, opts.types = some ts → ts ≠ [] → r.document.type ∈ ts) ∧
       (∀ ts, opts.tags = some ts → ts ≠ [] → ∃ t ∈ r.document.tags.getD [], t ∈ ts)) ∧
    (search env now st ss query opts).1.length ≤ opts.limit.getD 50 ∧
    ((if (st.getDocumentStats now).lastUpdated > ss.lastIndexUpdate
        then rebuildIndex now st else ss).built = true →
      trimWs query ≠ "" →
      (search env now st ss query opts).1 =
        ((postFilter opts (env.fuse
            (if (st.getDocumentStats now).lastUpdated > ss.lastIndexUpdate
               then rebuildIndex now st else ss).documents
            (opts.threshold.getD (3/10)) query (opts.limit.getD 50 * 2))).take
          (opts.limit.getD 50)).map (fun r => ⟨r.1, 1 - r.2⟩)) := by
  refine ⟨?_, search_length_le env now st ss query opts, ?_⟩
  · intro r hr
    rw [search_eq] at hr
    generalize (if (st.getDocumentStats now).lastUpdated > ss.lastIndexUpdate
        then rebuildIndex now st else ss) = ss1 at hr
    unfold searchBody at hr
    split at hr
    · simp at hr
    · obtain ⟨rp, hrp, hconv⟩ := List.mem_map.mp hr
      have hpf : rp ∈ postFilter opts _ := List.mem_of_mem_take hrp
      unfold postFilter at hpf
      obtain ⟨h2', htags⟩ := filterStage_mem _ _ _ _ hpf
      obtain ⟨h1', htypes⟩ := filterStage_mem _ _ _ _ h2'
      obtain ⟨h0', hsrc⟩ := filterStage_mem _ _ _ _ h1'
      subst hconv
      refine ⟨?_, ?_, ?_⟩
      · intro ids hids hne
        have := hsrc ids hids hne
        simpa using this
      · intro ts hts hne
        have := htypes ts hts hne
        simpa using this
      · intro ts hts hne
        have := htags ts hts hne
        obtain ⟨t, ht1, ht2⟩ := List.any_eq_true.mp this
        exact ⟨t, ht1, by simpa using ht2⟩
  · intro hbuilt hquery
    rw [search_eq]
    unfold searchBody
    rw [if_neg (by simp [hbuilt, hquery])]
    by_cases ht : opts.threshold.getD (3/10) = 3/10
    · rw [ht]
      rw [if_neg (by simp)]
    · rw [if_pos ht]

section
/- `Rat` arithmetic in Batteries is `@[irreducible]`; concrete evaluation
of search scores below needs it unfolded. -/
attribute [local semireducible] Rat.sub Rat.add Rat.mul Rat.inv

/-- Witness for C7 at a concrete search with all three restrictions
present: the single surviving result satisfies them, and the result list
respects the limit. -/
theorem c7_search_post_filters_witness :
    (⟨docB, 1⟩ : DocumentSearchResult) ∈ (search fuseEnv 50 searchStore searchState "alpha"
        ⟨some 2, none, some ["s1"], some ["markdown"], some ["alpha"]⟩).1 ∧
    docB.sourceId ∈ ["s1"] ∧
    docB.type ∈ ["markdown"] ∧
    (search fuseEnv 50 searchStore searchState "alpha"
        ⟨some 2, none, some ["s1"], some ["markdown"], some ["alpha"]⟩).1.length ≤ 2 := by
  have hres : (search fuseEnv 50 searchStore searchState "alpha"
      ⟨some 2, none, some ["s1"], some ["markdown"], some ["alpha"]⟩).1
      = [⟨docB, 1⟩] := rfl
  have hmem : (⟨docB, 1⟩ : DocumentSearchResult) ∈ (search fuseEnv 50 searchStore searchState
      "alpha" ⟨some 2, none, some ["s1"], some ["markdown"], some ["alpha"]⟩).1 := by
    rw [hres]; exact List.mem_singleton.mpr rfl
  obtain ⟨hp1, hp2, hp3⟩ := (c7_search_post_filters fuseEnv 50 searchStore searchState "alpha"
    ⟨some 2, none, some ["s1"], some ["markdown"], some ["alpha"]⟩).1 _ hmem
  exact ⟨hmem, hp1 ["s1"] rfl (by decide), hp2 ["markdown"] rfl (by decide),
    (c7_search_post_filters fuseEnv 50 searchStore searchState "alpha"
      ⟨some 2, none, some ["s1"], some ["markdown"], some ["alpha"]⟩).2.1⟩

/-- C8: `getSimilarDocuments` on a stored document builds its query from
the document's title and tags joined by spaces, runs `search` with
`limit + 1`, and never returns the target document itself. -/
theorem c8_similar_excludes_target (env : Env) (now : Int) (st : Store) (ss : SearchState)
    (documentId : String) (n : Nat) (doc : Document)
    (hdoc : st.getDocument documentId = some doc) :
    (∀ r ∈ (getSimilarDocuments env now st ss documentId n).1, r.document.id ≠ documentId) ∧
    (getSimilarDocuments env now st ss documentId n).1 =
      (search env now st ss (String.intercalate " " (doc.title :: doc.tags.getD []))
        ⟨some (n + 1), none, none, none, none⟩).1.filter
        (fun r => r.document.id != documentId) := by
  unfold getSimilarDocuments
  rw [hdoc]
  refine ⟨?_, rfl⟩
  intro r hr
  have := (List.mem_filter.mp hr).2
  simpa using this

/-- Witness for C8 at the concrete fixture store. -/
theorem c8_similar_excludes_target_witness :
    searchStore.getDocument "idA" = some docA ∧
    (getSimilarDocuments fuseEnv 50 searchStore searchState "idA" 1).1 =
      (search fuseEnv 50 searchStore searchState
        (String.intercalate " " (docA.title :: docA.tags.getD []))
        ⟨some 2, none, none, none, none⟩).1.filter (fun r => r.document.id != "idA") :=
  ⟨rfl, (c8_similar_excludes_target fuseEnv 50 searchStore searchState "idA" 1 docA rfl).2⟩

/-- C9, counterexample to the claim as stated: for a store whose single
document has `updatedAt = 0` (the epoch), the maximum `updatedAt` is `0`,
but `getDocumentStats` reports the current time instead — the row value
passes through JS truthiness, and `0` is falsy. -/
theorem c9_counterexample :
    (epochStore.documents.map (fun d => d.updatedAt)).max? = some 0 ∧
    (epochStore.getDocumentStats 1).lastUpdated = 1 ∧
    ¬ (epochStore.getDocumentStats 1).lastUpdated = 0 :=
  ⟨rfl, rfl, by decide⟩

/-- C9 (amended): for every store whose document set is nonempty and
whose maximum `updatedAt` is not exactly `0`, `Stats.lastUpdated` equals
that maximum (otherwise it falls back to the query time); and this value
is precisely what `search` compares against `lastIndexUpdate` to decide
whether to rebuild the index before serving. -/
theorem c9_stats_staleness (st : Store) (now : Int) (m : Int)
    (hmax : (st.documents.map (fun d => d.updatedAt)).max? = some m) (hm0 : m ≠ 0) :
    (st.getDocumentStats now).lastUpdated = m ∧
    (∀ (env : Env) (ss : SearchState) (query : String) (opts : SearchOptions),
      (search env now st ss query opts).2 =
        if (st.getDocumentStats now).lastUpdated > ss.lastIndexUpdate
        then rebuildIndex now st else ss) := by
  constructor
  · simp [Store.getDocumentStats, hmax, hm0]
  · intro env ss query opts
    rw [search_eq, searchBody_snd]

/-- Witness for the amended C9 at the fixture store (maximum `updatedAt`
is 5, nonzero). -/
theorem c9_stats_staleness_witness :
    (searchStore.documents.map (fun d => d.updatedAt)).max? = some 5 ∧
    (searchStore.getDocumentStats 7).lastUpdated = 5 ∧
    (search mockEnv 7 searchStore searchState "q" ⟨none, none, none, none, none⟩).2 =
      (if (searchStore.getDocumentStats 7).lastUpdated > searchState.lastIndexUpdate
       then rebuildIndex 7 searchStore else searchState) :=
  ⟨rfl, (c9_stats_staleness searchStore 7 5 rfl (by decide)).1,
   (c9_stats_staleness searchStore 7 5 rfl (by decide)).2 mockEnv searchState "q"
     ⟨none, none, none, none, none⟩⟩

/-- C10 (implicit): `getSimilarDocuments(id, limit)` returns at most
`limit + 1` results — not at most `limit`: the self-exclusion filter runs
after the underlying search is truncated to `limit + 1`, so when the
target is not among those `limit + 1` ranked results the returned list
has `limit + 1` elements, exceeding the requested limit (witnessed
concretely with `limit = 1` yielding 2 results). -/
theorem c10_similar_limit_plus_one :
    (∀ (env : Env) (now : Int) (st : Store) (ss : SearchState) (documentId : String)
        (limit : Nat),
        (getSimilarDocuments env now st ss documentId limit).1.length ≤ limit + 1) ∧
    (getSimilarDocuments fuseEnv 50 searchStore searchState "idA" 1).1.length = 2 := by
  constructor
  · intro env now st ss documentId limit
    unfold getSimilarDocuments
    cases hd : st.getDocument documentId with
    | none => simp
    | some doc =>
        simp only
        calc ((search env now st ss (String.intercalate " " (doc.title :: doc.tags.getD []))
                ⟨some (limit + 1), none, none, none, none⟩).1.filter
                (fun r => r.document.id != documentId)).length
            ≤ (search env now st ss (String.intercalate " " (doc.title :: doc.tags.getD []))
                ⟨some (limit + 1), none, none, none, none⟩).1.length :=
              List.length_filter_le _ _
          _ ≤ limit + 1 := search_length_le _ _ _ _ _ _
  · rfl

end
